import Mathlib

/-!
Verification of the `jot` terminal text editor (Rust, `src/lib.rs`, module `core`).

This file gives a shallow embedding of the editor's core data structures and of
its application-level state machine, translated definition-by-definition from
the Rust source, and proves/refutes the frozen claims about the specification.

Modelling conventions:
* A Rust `String` / `Vec<char>` is a `List Char` (named `Str` below).  Where the
  source performs byte-level operations on a `String` (`String::split_at`,
  `str::len`, `str::match_indices`), the model works with the UTF-8 byte widths
  of the characters (`Char.utf8Size`), so the byte/char distinction of the
  source is preserved.
* A Rust `PathBuf` is a list of path components (`List Str`).
* Filesystem calls are abstracted by an `Oracle`: a record of functions giving
  the result of each OS call.  One oracle is fixed per handled event; different
  events of a trace may use different oracles (the filesystem may change
  between events).
* A Rust panic (e.g. `String::split_at` on a non-boundary index, `.unwrap()` on
  an `Err`, `Vec::remove` out of bounds) is modelled by `Option`: the handler
  returns `none` exactly when the source would abort.
-/

set_option maxRecDepth 10000

/-- The characters of one Rust `String` / one `Vec<char>`. -/
abbrev Str := List Char

/-- The UTF-8 byte length of a string, as returned by Rust's `str::len`. -/
def byteLen (s : Str) : Nat := (s.map Char.utf8Size).sum

/-- Model of Rust `String::split_at`: splits at a BYTE index.  Returns `none`
exactly when Rust would panic, i.e. when the byte index is out of bounds or
does not fall on a character boundary. -/
def splitAtByte : Str → Nat → Option (Str × Str)
  | s, 0 => some ([], s)
  | [], _ + 1 => none
  | c :: rest, b + 1 =>
    if c.utf8Size ≤ b + 1 then
      match splitAtByte rest (b + 1 - c.utf8Size) with
      | none => none
      | some (l, r) => some (c :: l, r)
    else none

/-- Split a string at every newline character.  Produces `k+1` pieces for `k`
newlines (so it is never empty). -/
def splitNewline : Str → List Str
  | [] => [[]]
  | c :: rest =>
    if c = '\n' then [] :: splitNewline rest
    else
      match splitNewline rest with
      | [] => [[c]]
      | l :: ls => (c :: l) :: ls

/-- Strip one trailing carriage return, as Rust `str::lines` does for a line
that was terminated by `\r\n`. -/
def stripTrailingCR (l : Str) : Str :=
  if l.getLast? = some '\r' then l.dropLast else l

/-- Model of Rust `str::lines`: splits at `\n` or `\r\n`; a final line
terminator produces no trailing empty line; a piece not followed by a newline
keeps any trailing `\r`. -/
def rustLines (s : Str) : List Str :=
  if s = [] then []
  else
    let parts := splitNewline s
    if s.getLast? = some '\n' then (parts.dropLast).map stripTrailingCR
    else (parts.dropLast).map stripTrailingCR ++ [parts.getLast?.getD []]

/-- Model of `Vec::<String>::join("\n")` as used on save. -/
def joinLines : List Str → Str
  | [] => []
  | [l] => l
  | l :: ls => l ++ '\n' :: joinLines ls

/-- Model of Rust `str::split_whitespace` (auxiliary: `acc` holds the current
token reversed). -/
def splitWsAux : Str → Str → List Str
  | [], acc => if acc = [] then [] else [acc.reverse]
  | c :: rest, acc =>
    if c.isWhitespace then
      if acc = [] then splitWsAux rest [] else acc.reverse :: splitWsAux rest []
    else splitWsAux rest (c :: acc)

/-- Model of Rust `str::split_whitespace`: whitespace-separated tokens, empty
tokens dropped. -/
def splitWhitespace (s : Str) : List Str := splitWsAux s []

/-- A `PathBuf`, abstracted as its list of components. -/
abbrev FsPath := List Str

/-- `PathBuf::push` with a single file-name component (as the source always
does). -/
def FsPath.push (p : FsPath) (name : Str) : FsPath := p ++ [name]

/-- `PathBuf::set_file_name`: replaces the last component.  (The Rust corner
case of a path without a file name is not exercised by the source.) -/
def FsPath.setFileName (p : FsPath) (name : Str) : FsPath := p.dropLast ++ [name]

/-- `FsPath::file_name`: the last component, if any. -/
def FsPath.fileName? (p : FsPath) : Option Str := p.getLast?

/-- `FsPath::parent`: drop the last component; `none` at the root. -/
def FsPath.parent? (p : FsPath) : Option FsPath :=
  match p with
  | [] => none
  | _ => some p.dropLast

/-- `FsPath::starts_with`: component-wise prefix test. -/
def FsPath.startsWith (pre p : FsPath) : Bool := List.isPrefixOf pre p

/-- `FsPath::display`, used only to build status messages. -/
def FsPath.display (p : FsPath) : Str := List.intercalate (("/").toList) p

/-- `PathBuf::from(arg)` for a command argument: treated as a single
component (splitting an argument on separators is an OS concern outside the
claims). -/
def FsPath.ofArg (s : Str) : FsPath := [s]

/-- The line zipper (`core::Zipper`): characters left of the cursor in order,
characters right of the cursor stored nearest-to-cursor-last (so that Rust's
`Vec::push`/`Vec::pop` at the end of `after` are `getLast?`/`dropLast`
here, exactly as in the source). -/
structure Zipper where
  before : Str
  after : Str
deriving DecidableEq, Repr

/-- `Zipper::new`. -/
def Zipper.new : Zipper := ⟨[], []⟩

/-- `Zipper::from_str`. -/
def Zipper.from_str (t : Str) : Zipper := ⟨[], t.reverse⟩

/-- `Zipper::move_left`. -/
def Zipper.move_left (z : Zipper) : Zipper :=
  match z.before.getLast? with
  | some c => ⟨z.before.dropLast, z.after ++ [c]⟩
  | none => z

/-- `Zipper::move_right`. -/
def Zipper.move_right (z : Zipper) : Zipper :=
  match z.after.getLast? with
  | some c => ⟨z.before ++ [c], z.after.dropLast⟩
  | none => z

/-- `Zipper::insert`. -/
def Zipper.insert (z : Zipper) (c : Char) : Zipper := ⟨z.before ++ [c], z.after⟩

/-- `Zipper::delete`. -/
def Zipper.delete (z : Zipper) : Zipper := ⟨z.before.dropLast, z.after⟩

/-- `Zipper::cursor_position`. -/
def Zipper.cursor_position (z : Zipper) : Nat := z.before.length

/-- `Zipper::set_cursor_position`: reconstruct the whole line and re-split at
`min pos length`. -/
def Zipper.set_cursor_position (z : Zipper) (pos : Nat) : Zipper :=
  let content := z.before ++ z.after.reverse
  let p := min pos content.length
  ⟨content.take p, (content.drop p).reverse⟩

/-- `Zipper::to_string`. -/
def Zipper.to_string (z : Zipper) : Str := z.before ++ z.after.reverse

/-- One open buffer (`core::Page`). -/
structure Page where
  before : List Str
  current : Zipper
  after : List Str
  file_path : Option FsPath
  scroll_offset : Nat
  horizontal_scroll_offset : Nat
deriving DecidableEq, Repr

/-- `Page::new`. -/
def Page.new : Page := ⟨[], Zipper.new, [], none, 0, 0⟩

/-- `Page::load_from_string`. -/
def Page.load_from_string (p : Page) (contents : Str) : Page :=
  match rustLines contents with
  | [] => { p with before := [], current := Zipper.new, after := [] }
  | first :: rest => { p with before := [], current := Zipper.from_str first, after := rest }

/-- `Page::move_up`. -/
def Page.move_up (p : Page) : Page :=
  match p.before.getLast? with
  | none => p
  | some prev_line =>
    let cursor_pos := p.current.cursor_position
    { p with before := p.before.dropLast
           , after := p.current.to_string :: p.after
           , current := (Zipper.from_str prev_line).set_cursor_position cursor_pos }

/-- `Page::move_down`. -/
def Page.move_down (p : Page) : Page :=
  match p.after with
  | [] => p
  | next_line :: rest =>
    let cursor_pos := p.current.cursor_position
    { p with before := p.before ++ [p.current.to_string]
           , after := rest
           , current := (Zipper.from_str next_line).set_cursor_position cursor_pos }

/-- `Page::insert_newline`.  The source calls `String::split_at` with the
cursor's CHARACTER position used as a BYTE index; `none` models the resulting
panic on a non-boundary index. -/
def Page.insert_newline (p : Page) : Option Page :=
  let current_line := p.current.to_string
  match splitAtByte current_line p.current.cursor_position with
  | none => none
  | some (left, right) =>
    let p1 := { p with current := Zipper.from_str left, after := right :: p.after }
    let p2 := p1.move_down
    some { p2 with current := p2.current.set_cursor_position 0 }

/-- `Page::delete` (backspace semantics).  The merge sets the cursor to the
previous line's BYTE length (`prev_line.len()` in the source). -/
def Page.delete (p : Page) : Page :=
  if p.current.cursor_position = 0 ∧ p.before ≠ [] then
    match p.before.getLast? with
    | none => p
    | some prev_line =>
      let merged_line := prev_line ++ p.current.to_string
      { p with before := p.before.dropLast
             , current := (Zipper.from_str merged_line).set_cursor_position (byteLen prev_line) }
  else { p with current := p.current.delete }

/-- `Page::get_all_lines`. -/
def Page.get_all_lines (p : Page) : List Str :=
  p.before ++ [p.current.to_string] ++ p.after

/-- `Page::cursor_row`. -/
def Page.cursor_row (p : Page) : Nat := p.before.length

/-- `Page::move_cursor_to`: clamp the row, re-partition the lines around it
(`split_off`/`pop` in the source), set the column clamped to the line length. -/
def Page.move_cursor_to (p : Page) (row col : Nat) : Page :=
  let lines := p.get_all_lines
  let target_row := min row (lines.length - 1)
  let kept := lines.take (target_row + 1)
  let after_lines := lines.drop (target_row + 1)
  let current_line := kept.getLast?.getD []
  { p with before := kept.dropLast
         , after := after_lines
         , current := (Zipper.from_str current_line).set_cursor_position col }

/-- The file tree state (`core::DirectoryView`).  Entries are represented by
their paths (`fs::DirEntry::path()` is all the handlers use of an entry). -/
structure DirectoryView where
  path : FsPath
  entries : List FsPath
  selected_index : Nat
  scroll_offset : Nat
deriving DecidableEq, Repr

/-- The filesystem, abstracted as the responses of each OS call the handlers
make.  `readDir` also performs the `DirectoryView::new` sort (directories
first, case-insensitively by name): no claim depends on the order, so the
sorted listing is taken as the boundary. -/
structure Oracle where
  readDir : FsPath → Except Str (List FsPath)
  isDir : FsPath → Bool
  removeDirAll : FsPath → Except Str Unit
  removeFile : FsPath → Except Str Unit
  writeFs : FsPath → Str → Except Str Unit
  createDir : FsPath → Except Str Unit
  renameFs : FsPath → FsPath → Except Str Unit
  readToString : FsPath → Option Str

/-- `DirectoryView::new`. -/
def DirectoryView.new (o : Oracle) (path : FsPath) : Except Str DirectoryView :=
  match o.readDir path with
  | .ok entries => .ok ⟨path, entries, 0, 0⟩
  | .error e => .error e

/-- `DirectoryView::move_up`. -/
def DirectoryView.move_up (d : DirectoryView) : DirectoryView :=
  { d with selected_index := d.selected_index - 1 }

/-- `DirectoryView::move_down`. -/
def DirectoryView.move_down (d : DirectoryView) : DirectoryView :=
  if d.entries ≠ [] then
    { d with selected_index := min (d.selected_index + 1) (d.entries.length - 1) }
  else d

/-- `Page::from_file`: a missing or unreadable file yields an empty buffer. -/
def Page.from_file (o : Oracle) (path : Option FsPath) : Page :=
  let page := { Page.new with file_path := path }
  match path with
  | some p =>
    match o.readToString p with
    | some contents => page.load_from_string contents
    | none => page
  | none => page

/-- `core::Mode`. -/
inductive Mode where
  | Command
  | Edit
  | FileTree
  | PromptSave
  | PromptSaveAndQuit
  | Find
  | ConfirmDelete
  | PromptNewFile
  | PromptNewDirectory
  | PromptRename
deriving DecidableEq, Repr

/-- `core::ActivePane`. -/
inductive ActivePane where
  | FileTree
  | Editor
deriving DecidableEq, Repr

/-- The key codes distinguished by the handlers (`crossterm::KeyCode`). -/
inductive KeyCode where
  | char (c : Char)
  | enter
  | esc
  | backspace
  | tab
  | up
  | down
  | left
  | right
  | otherKey
deriving DecidableEq, Repr

/-- The modifier states distinguished by the handlers
(`crossterm::KeyModifiers`). -/
inductive KeyMods where
  | noMods
  | shiftMod
  | otherMods
deriving DecidableEq, Repr

/-- A key event (`crossterm::KeyEvent`). -/
structure KeyEvent where
  code : KeyCode
  modifiers : KeyMods
deriving DecidableEq, Repr

/-- The mouse event kinds distinguished by the handlers. -/
inductive MouseKind where
  | scrollUp
  | scrollDown
  | downClick
  | otherKind
deriving DecidableEq, Repr

/-- A mouse event (`crossterm::MouseEvent`). -/
structure MouseEvt where
  kind : MouseKind
  column : Nat
  row : Nat
deriving DecidableEq, Repr

/-- An input event (`crossterm::event::Event`). -/
inductive Event where
  | key (k : KeyEvent)
  | mouse (m : MouseEvt)
  | otherEvent
deriving DecidableEq, Repr

/-- The whole application state (`core::App`). -/
structure App where
  tabs : List Page
  active_tab_index : Nat
  directory_view : DirectoryView
  active_pane : ActivePane
  mode : Mode
  command_buffer : Str
  status_message : Str
  should_quit : Bool
  find_query : Str
  find_matches : List (Nat × Nat)
  current_match_index : Nat
  path_to_delete : Option FsPath
  path_to_rename : Option FsPath
  find_navigation_active : Bool
deriving DecidableEq, Repr

/-- `App::new` (the `env::current_dir()` result is the `cwd` argument). -/
def App.new (o : Oracle) (cwd : FsPath) (initial_path : Option FsPath) : Except Str App :=
  match DirectoryView.new o cwd with
  | .error e => .error e
  | .ok dv =>
    match initial_path with
    | none =>
      .ok { tabs := [], active_tab_index := 0, directory_view := dv
          , active_pane := .FileTree, mode := .FileTree
          , command_buffer := [], status_message := [], should_quit := false
          , find_query := [], find_matches := [], current_match_index := 0
          , path_to_delete := none, path_to_rename := none, find_navigation_active := false }
    | some p =>
      .ok { tabs := [Page.from_file o (some p)], active_tab_index := 0, directory_view := dv
          , active_pane := .Editor, mode := .Edit
          , command_buffer := [], status_message := [], should_quit := false
          , find_query := [], find_matches := [], current_match_index := 0
          , path_to_delete := none, path_to_rename := none, find_navigation_active := false }

/-- `App::get_active_page` (read-only variant). -/
def App.get_active_page? (a : App) : Option Page := a.tabs.get? a.active_tab_index

/-- Mutation through `App::get_active_page`: apply `f` to the active page if
there is one, else do nothing. -/
def App.modifyActivePage (a : App) (f : Page → Page) : App :=
  match a.tabs.get? a.active_tab_index with
  | none => a
  | some p => { a with tabs := a.tabs.set a.active_tab_index (f p) }

/-- The file-tree pane width `(term_width as f32 * 0.25).round() as u16`.
For every `w < 2^16` the product `w * 0.25` is exactly representable in `f32`
and rounding half away from zero gives exactly `(w + 2) / 4` in integers. -/
def fileTreeWidth (w : Nat) : Nat := (w + 2) / 4

/-- Tab-bar hit test of `handle_mouse_event` (case `row == 0`): the name shown
for a page in the tab bar. -/
def tabName (p : Page) : Str :=
  match p.file_path with
  | some path =>
    match path.fileName? with
    | some n => n
    | none => ("[No Name]").toList
  | none => ("[No Name]").toList

/-- The text of one tab in the tab bar (`format!(" {} ", file_name)`). -/
def tabText (p : Page) : Str := (' ' :: tabName p) ++ [' ']

/-- The iteration of `handle_mouse_event` over the tab bar: find the first tab
whose column range contains the click column (`tab_text.len()` is a byte
length in the source). -/
def tabClickIndex : List Page → Nat → Nat → Nat → Option Nat
  | [], _, _, _ => none
  | p :: rest, i, cur, col =>
    let w := byteLen (tabText p)
    if cur ≤ col ∧ col < cur + w then some i
    else tabClickIndex rest (i + 1) (cur + w) col

/-- `App::prompt_for_delete`. -/
def App.prompt_for_delete (a : App) : App :=
  match a.directory_view.entries.get? a.directory_view.selected_index with
  | some path => { a with path_to_delete := some path, mode := .ConfirmDelete }
  | none => a

/-- `App::prompt_for_rename`. -/
def App.prompt_for_rename (a : App) : App :=
  match a.directory_view.entries.get? a.directory_view.selected_index with
  | some path => { a with path_to_rename := some path, mode := .PromptRename }
  | none => a

/-- `App::handle_delete_confirm_event`. -/
def App.handle_delete_confirm_event (o : Oracle) (a : App) (key_code : KeyCode) : App :=
  match key_code with
  | .char 'y' | .char 'Y' =>
    let a1 :=
      match a.path_to_delete with
      | some path =>
        let a := { a with path_to_delete := none }
        let result := if o.isDir path then o.removeDirAll path else o.removeFile path
        match result with
        | .ok _ =>
          let a := { a with status_message := ("Deleted ").toList ++ FsPath.display path }
          let a := { a with tabs := a.tabs.filter (fun page =>
                       match page.file_path with
                       | some page_path => !(FsPath.startsWith path page_path)
                       | none => true) }
          let a :=
            if a.tabs = [] then { a with mode := .Command, active_tab_index := 0 }
            else if a.tabs.length ≤ a.active_tab_index then
              { a with active_tab_index := a.tabs.length - 1 }
            else a
          match DirectoryView.new o a.directory_view.path with
          | .ok new_view => { a with directory_view := new_view }
          | .error _ => a
        | .error e => { a with status_message := ("Error deleting: ").toList ++ e }
      | none => a
    { a1 with mode := .FileTree }
  | .char 'n' | .char 'N' | .esc =>
    { a with path_to_delete := none
           , status_message := ("Delete cancelled.").toList
           , mode := .FileTree }
  | _ => a

/-- `App::execute_rename`. -/
def App.execute_rename (o : Oracle) (a : App) (new_name : Str) : App :=
  let a1 :=
    match a.path_to_rename with
    | some old_path =>
      let a := { a with path_to_rename := none }
      let new_path := FsPath.setFileName old_path new_name
      match o.renameFs old_path new_path with
      | .ok _ =>
        let a := { a with status_message := ("Renamed to ").toList ++ FsPath.display new_path }
        let a := { a with tabs := a.tabs.map (fun (tab : Page) =>
                     if tab.file_path = some old_path then { tab with file_path := some new_path }
                     else tab) }
        match DirectoryView.new o a.directory_view.path with
        | .ok new_view => { a with directory_view := new_view }
        | .error _ => a
      | .error e => { a with status_message := ("Error: ").toList ++ e }
    | none => a
  { a1 with mode := .FileTree }

/-- `App::execute_new_item`. -/
def App.execute_new_item (o : Oracle) (a : App) (name : Str) (mode : Mode) : App :=
  let path := FsPath.push a.directory_view.path name
  let result := if mode = .PromptNewFile then o.writeFs path [] else o.createDir path
  match result with
  | .ok _ =>
    let a := { a with status_message := ("Created ").toList ++ FsPath.display path }
    let a :=
      if mode = .PromptNewFile then
        let tabs := a.tabs ++ [Page.from_file o (some path)]
        { a with tabs := tabs, active_tab_index := tabs.length - 1
               , active_pane := .Editor, mode := .Edit }
      else { a with mode := .FileTree }
    match DirectoryView.new o a.directory_view.path with
    | .ok new_view => { a with directory_view := new_view }
    | .error _ => a
  | .error e => { a with status_message := ("Error: ").toList ++ e, mode := .FileTree }

/-- `App::handle_prompt_input_event` (the `PromptNewFile` / `PromptNewDirectory`
/ `PromptRename` dialogs). -/
def App.handle_prompt_input_event (o : Oracle) (a : App) (key_code : KeyCode) : App :=
  match key_code with
  | .esc =>
    { a with status_message := ("Cancelled.").toList, command_buffer := [], mode := .FileTree }
  | .char c => { a with command_buffer := a.command_buffer ++ [c] }
  | .backspace => { a with command_buffer := a.command_buffer.dropLast }
  | .enter =>
    if a.command_buffer ≠ [] then
      let name := a.command_buffer
      let current_mode := a.mode
      let a := { a with command_buffer := [] }
      if current_mode = .PromptRename then a.execute_rename o name
      else a.execute_new_item o name current_mode
    else a
  | _ => a

/-- `App::go_up_directory`. -/
def App.go_up_directory (o : Oracle) (a : App) : App :=
  match FsPath.parent? a.directory_view.path with
  | some parent =>
    match DirectoryView.new o parent with
    | .ok new_view => { a with directory_view := new_view }
    | .error _ => { a with status_message := ("Cannot access parent directory.").toList }
  | none => a

/-- `Iterator::position` over the tabs, used by `open_selected_entry`. -/
def findPosition (pred : Page → Bool) : List Page → Option Nat
  | [] => none
  | p :: rest => if pred p then some 0 else (findPosition pred rest).map (· + 1)

/-- `App::open_selected_entry`.  `none` models the panic of the source's
`.unwrap()` when the current directory cannot be re-listed either. -/
def App.open_selected_entry (o : Oracle) (a : App) : Option App :=
  match a.directory_view.entries.get? a.directory_view.selected_index with
  | none => some a
  | some path =>
    if o.isDir path then
      match DirectoryView.new o path with
      | .ok new_view => some { a with directory_view := new_view }
      | .error e =>
        let a := { a with status_message := ("Error: ").toList ++ e }
        match DirectoryView.new o a.directory_view.path with
        | .ok new_view => some { a with directory_view := new_view }
        | .error _ => none
    else
      let a :=
        match findPosition (fun p => p.file_path = some path) a.tabs with
        | some index => { a with active_tab_index := index }
        | none =>
          if a.tabs = [] then
            { a with tabs := [Page.from_file o (some path)], active_tab_index := 0 }
          else
            let tabs := a.tabs ++ [Page.from_file o (some path)]
            { a with tabs := tabs, active_tab_index := tabs.length - 1 }
      some { a with active_pane := .Editor, mode := .Edit }

/-- Non-overlapping scan of `str::match_indices` over one line, reporting BYTE
offsets.  `b` is the byte offset of the current position; after a match the
next `q.length - 1` characters are skipped (`skip` counter), so the scan
resumes after the matched substring, exactly like `match_indices`. -/
def matchIndicesAux (q : Str) : Str → Nat → Nat → List Nat
  | [], _, _ => []
  | c :: rest, b, skip =>
    match skip with
    | k + 1 => matchIndicesAux q rest (b + c.utf8Size) k
    | 0 =>
      if q ≠ [] ∧ List.isPrefixOf q (c :: rest) then
        b :: matchIndicesAux q rest (b + c.utf8Size) (q.length - 1)
      else matchIndicesAux q rest (b + c.utf8Size) 0

/-- Model of `str::match_indices(query)` (start byte offsets of the disjoint
matches found left to right). -/
def matchIndices (q s : Str) : List Nat := matchIndicesAux q s 0 0

/-- The double loop of `update_search_matches` over `enumerate()`d lines,
starting at row `r0`. -/
def findMatchesFrom (q : Str) : List Str → Nat → List (Nat × Nat)
  | [], _ => []
  | l :: rest, r0 =>
    (matchIndices q l).map (fun col => (r0, col)) ++ findMatchesFrom q rest (r0 + 1)

/-- All `(row, byte column)` matches of the query over the buffer lines, in
row-major left-to-right order, as collected by `update_search_matches`. -/
def findMatchesInLines (q : Str) (lines : List Str) : List (Nat × Nat) :=
  findMatchesFrom q lines 0

/-- `App::jump_to_match`. -/
def App.jump_to_match (a : App) : App :=
  match a.find_matches.get? a.current_match_index with
  | some rc => a.modifyActivePage (fun p => p.move_cursor_to rc.1 rc.2)
  | none => a

/-- `App::jump_to_next_match`. -/
def App.jump_to_next_match (a : App) : App :=
  if a.find_matches ≠ [] then
    ({ a with current_match_index := (a.current_match_index + 1) % a.find_matches.length }).jump_to_match
  else a

/-- `App::jump_to_prev_match`. -/
def App.jump_to_prev_match (a : App) : App :=
  if a.find_matches ≠ [] then
    ({ a with current_match_index :=
        (a.current_match_index + a.find_matches.length - 1) % a.find_matches.length }).jump_to_match
  else a

/-- `App::update_search_matches`. -/
def App.update_search_matches (a : App) : App :=
  let a := { a with find_matches := [] }
  if a.find_query = [] then a
  else
    let a :=
      match a.tabs.get? a.active_tab_index with
      | some page => { a with find_matches := findMatchesInLines a.find_query page.get_all_lines }
      | none => a
    if a.find_matches ≠ [] then
      ({ a with current_match_index := 0 }).jump_to_match
    else a

/-- `App::handle_find_event`. -/
def App.handle_find_event (a : App) (event : KeyEvent) : App :=
  match event.code with
  | .esc =>
    { a with mode := .Command, find_query := [], find_matches := []
           , find_navigation_active := false }
  | .enter =>
    if a.find_query ≠ [] then
      ({ a with find_navigation_active := true }).jump_to_match
    else a
  | .char c =>
    if c = 'n' ∧ a.find_navigation_active ∧ event.modifiers = KeyMods.noMods then
      a.jump_to_next_match
    else if (c = 'N' ∨ c = 'n') ∧ a.find_navigation_active ∧ event.modifiers = KeyMods.shiftMod then
      a.jump_to_prev_match
    else
      let a :=
        if a.find_navigation_active then
          { a with find_query := [], find_navigation_active := false }
        else a
      ({ a with find_query := a.find_query ++ [c] }).update_search_matches
  | .backspace =>
    if a.find_query ≠ [] then
      ({ a with find_navigation_active := false
              , find_query := a.find_query.dropLast }).update_search_matches
    else a
  | _ => a

/-- `App::handle_prompt_event` (the `PromptSave` / `PromptSaveAndQuit`
dialogs). -/
def App.handle_prompt_event (o : Oracle) (a : App) (key_code : KeyCode) : App :=
  match key_code with
  | .esc =>
    { a with status_message := ("Save cancelled.").toList, command_buffer := [], mode := .Command }
  | .char c => { a with command_buffer := a.command_buffer ++ [c] }
  | .backspace => { a with command_buffer := a.command_buffer.dropLast }
  | .enter =>
    if a.command_buffer ≠ [] then
      let file_name := a.command_buffer
      let path := FsPath.push a.directory_view.path file_name
      let should_quit_after := a.mode = Mode.PromptSaveAndQuit
      let content := ((a.tabs.get? a.active_tab_index).map
                        (fun p => joinLines p.get_all_lines)).getD []
      let a1 :=
        match o.writeFs path content with
        | .ok _ =>
          let a := a.modifyActivePage (fun p => { p with file_path := some path })
          let a := { a with status_message := ("Saved to ").toList ++ FsPath.display path
                          , mode := .Command }
          let a := if should_quit_after then { a with should_quit := true } else a
          match DirectoryView.new o a.directory_view.path with
          | .ok new_view => { a with directory_view := new_view }
          | .error _ => a
        | .error e => { a with status_message := ("Error: ").toList ++ e, mode := .Command }
      { a1 with command_buffer := [] }
    else a
  | _ => a

/-- `App::revert_active_file`.  (In the source the success status message is
set inside `if let Some(page) = self.get_active_page()`; that lookup uses the
same index that produced `file_path`, so it succeeds exactly when `file_path`
was found, which the model exploits.) -/
def App.revert_active_file (o : Oracle) (a : App) : App :=
  match (a.tabs.get? a.active_tab_index).bind (fun p => p.file_path) with
  | some path =>
    match o.readToString path with
    | some contents =>
      let a := a.modifyActivePage (fun p => p.load_from_string contents)
      { a with status_message := ("Reverted to saved version.").toList }
    | none => { a with status_message := ("Error reading file: ").toList ++ FsPath.display path }
  | none => { a with status_message := ("No file to revert from.").toList }

/-- `App::save_active_file`: returns the new state and whether the save
succeeded. -/
def App.save_active_file (o : Oracle) (a : App) (arg : Option Str) (quit_after_app : Bool) :
    App × Bool :=
  let path_from_arg := arg.map FsPath.ofArg
  let path_from_page := (a.tabs.get? a.active_tab_index).bind (fun p => p.file_path)
  let path_to_write :=
    match path_from_arg with
    | some p => some p
    | none => path_from_page
  match path_to_write with
  | some path =>
    let content := ((a.tabs.get? a.active_tab_index).map
                      (fun p => joinLines p.get_all_lines)).getD []
    match o.writeFs path content with
    | .ok _ =>
      let a := { a with status_message := ("Saved to ").toList ++ FsPath.display path }
      let a := a.modifyActivePage (fun p => { p with file_path := some path })
      let a := if quit_after_app then { a with should_quit := true } else a
      (a, true)
    | .error e => ({ a with status_message := ("Error: ").toList ++ e }, false)
  | none =>
    ({ a with mode := if quit_after_app then Mode.PromptSaveAndQuit else Mode.PromptSave
            , command_buffer := [] }, false)

/-- The two trailing statements of the tab-closing commands `q`/`wq`:
`Vec::remove(active_tab_index)` — `none` models the out-of-bounds panic — is
`closeActiveTab`, and the subsequent clamp of the active index is
`clampAfterClose`. -/
def App.closeActiveTab (a : App) : Option App :=
  if a.tabs ≠ [] then
    if a.active_tab_index < a.tabs.length then
      some { a with tabs := a.tabs.eraseIdx a.active_tab_index }
    else none
  else some a

/-- The clamp `if tabs.is_empty { mode = Command; idx = 0 } else if idx >= len
{ idx = len - 1 }` shared by `q`, `wq` and the post-delete cleanup. -/
def App.clampAfterClose (a : App) : App :=
  if a.tabs = [] then { a with mode := .Command, active_tab_index := 0 }
  else if a.tabs.length ≤ a.active_tab_index then
    { a with active_tab_index := a.tabs.length - 1 }
  else a

/-- `App::execute_command`. -/
def App.execute_command (o : Oracle) (a : App) : Option App :=
  let cmd_line := a.command_buffer
  let parts := splitWhitespace cmd_line
  let command := (parts.get? 0).getD []
  let arg := parts.get? 1
  let res : Option App :=
    if command = ("f").toList ∨ command = ("find").toList then
      some { a with mode := .Find, find_query := [] }
    else if command = ("q").toList ∨ command = ("quit").toList then
      a.closeActiveTab.map App.clampAfterClose
    else if command = ("x").toList ∨ command = ("exit").toList then
      some { a with should_quit := true }
    else if command = ("wx").toList then
      let errors := a.tabs.filterMap (fun (page : Page) =>
        match page.file_path with
        | some path =>
          match o.writeFs path (joinLines page.get_all_lines) with
          | .ok _ => none
          | .error e => some (FsPath.display path ++ (": ").toList ++ e)
        | none => none)
      let a :=
        if errors ≠ [] then
          { a with status_message :=
              ("Errors saving files: ").toList ++ List.intercalate ((", ").toList) errors }
        else { a with status_message := ("All files saved.").toList }
      some { a with should_quit := true }
    else if command = ("h").toList ∨ command = ("help").toList then
      some { a with status_message :=
        ("Help | Modes: Esc (Cmd/Edit), Tab (Dir) | Cmds: f, q, w, wq, x, wx, r | Dir Cmds: nf, nd, rn, d").toList }
    else if command = ("r").toList ∨ command = ("revert").toList then
      some (a.revert_active_file o)
    else if command = ("w").toList ∨ command = ("write").toList then
      some (a.save_active_file o arg false).1
    else if command = ("wq").toList then
      let sr := a.save_active_file o arg false
      if sr.2 then sr.1.closeActiveTab.map App.clampAfterClose
      else some sr.1
    else
      some { a with status_message := ("Unknown command: ").toList ++ cmd_line }
  res.map (fun a => { a with command_buffer := [] })

/-- `App::handle_editor_event`. -/
def App.handle_editor_event (o : Oracle) (a : App) (event : KeyEvent) : Option App :=
  if a.mode = .Find then some (a.handle_find_event event)
  else if a.mode = .PromptSave ∨ a.mode = .PromptSaveAndQuit then
    some (a.handle_prompt_event o event.code)
  else
    match event.code with
    | .esc =>
      match a.mode with
      | .Edit => some { a with mode := .Command }
      | .Command =>
        some (if a.tabs ≠ [] then { a with mode := .Edit, command_buffer := [] } else a)
      | _ => some a
    | .char c =>
      match a.mode with
      | .Edit => some (a.modifyActivePage (fun p => { p with current := p.current.insert c }))
      | .Command => some { a with command_buffer := a.command_buffer ++ [c] }
      | _ => some a
    | .backspace =>
      match a.mode with
      | .Edit => some (a.modifyActivePage Page.delete)
      | .Command => some { a with command_buffer := a.command_buffer.dropLast }
      | _ => some a
    | .enter =>
      match a.mode with
      | .Edit =>
        match a.tabs.get? a.active_tab_index with
        | some p =>
          match p.insert_newline with
          | some p2 => some { a with tabs := a.tabs.set a.active_tab_index p2 }
          | none => none
        | none => some a
      | .Command => a.execute_command o
      | _ => some a
    | .left =>
      if a.mode = .Command then
        some (if a.tabs.length > 1 then
                { a with active_tab_index :=
                    (a.active_tab_index + a.tabs.length - 1) % a.tabs.length }
              else a)
      else if a.mode = .Edit then
        some (a.modifyActivePage (fun p => { p with current := p.current.move_left }))
      else some a
    | .right =>
      if a.mode = .Command then
        some (if a.tabs.length > 1 then
                { a with active_tab_index := (a.active_tab_index + 1) % a.tabs.length }
              else a)
      else if a.mode = .Edit then
        some (a.modifyActivePage (fun p => { p with current := p.current.move_right }))
      else some a
    | .up =>
      if a.mode = .Edit then some (a.modifyActivePage Page.move_up) else some a
    | .down =>
      if a.mode = .Edit then some (a.modifyActivePage Page.move_down) else some a
    | .tab =>
      some { a with active_pane := .FileTree, mode := .FileTree, command_buffer := [] }
    | _ => some a

/-- `App::handle_file_tree_event`. -/
def App.handle_file_tree_event (o : Oracle) (a : App) (key_code : KeyCode) : Option App :=
  match key_code with
  | .up | .char 'k' => some { a with directory_view := a.directory_view.move_up }
  | .down | .char 'j' => some { a with directory_view := a.directory_view.move_down }
  | .left => some { (a.go_up_directory o) with command_buffer := [] }
  | .right | .char 'l' =>
    (a.open_selected_entry o).map (fun a => { a with command_buffer := [] })
  | .enter =>
    if a.command_buffer = [] then a.open_selected_entry o
    else
      let cmd := a.command_buffer
      let a := { a with command_buffer := [] }
      if cmd = ("d").toList then some a.prompt_for_delete
      else if cmd = ("nf").toList then some { a with mode := .PromptNewFile }
      else if cmd = ("nd").toList then some { a with mode := .PromptNewDirectory }
      else if cmd = ("rn").toList then some a.prompt_for_rename
      else some { a with status_message := ("Unknown command: ").toList ++ cmd }
  | .esc =>
    some { a with active_pane := .Editor, mode := .Command, command_buffer := [] }
  | .tab =>
    some { a with active_pane := .Editor
                , mode := if a.tabs = [] then .Command else .Edit
                , command_buffer := [] }
  | .char c => some { a with command_buffer := a.command_buffer ++ [c] }
  | .backspace => some { a with command_buffer := a.command_buffer.dropLast }
  | _ => some a

/-- `App::scroll_to_cursor`. -/
def App.scroll_to_cursor (a : App) (term_width term_height : Nat) : App :=
  let file_tree_width := fileTreeWidth term_width
  let view_height := term_height
  match a.active_pane with
  | .Editor =>
    a.modifyActivePage (fun page =>
      let cursor_row := page.cursor_row
      let scroll_offset := page.scroll_offset
      let editor_view_height := view_height - 2
      let page :=
        if cursor_row < scroll_offset then { page with scroll_offset := cursor_row }
        else if cursor_row ≥ scroll_offset + editor_view_height then
          { page with scroll_offset := cursor_row - editor_view_height + 1 }
        else page
      let cursor_col := page.current.cursor_position
      let h_scroll_offset := page.horizontal_scroll_offset
      let line_gutter_width := (toString page.get_all_lines.length).length + 2
      let editor_width := term_width - file_tree_width - 1
      let editor_text_area_width := editor_width - line_gutter_width
      if cursor_col < h_scroll_offset then
        { page with horizontal_scroll_offset := cursor_col }
      else if cursor_col ≥ h_scroll_offset + editor_text_area_width then
        { page with horizontal_scroll_offset := cursor_col - editor_text_area_width + 1 }
      else page)
  | .FileTree =>
    let selected_index := a.directory_view.selected_index
    let scroll_offset := a.directory_view.scroll_offset
    let file_tree_view_height := view_height - 2
    if selected_index < scroll_offset then
      { a with directory_view := { a.directory_view with scroll_offset := selected_index } }
    else if selected_index ≥ scroll_offset + file_tree_view_height then
      { a with directory_view :=
          { a.directory_view with scroll_offset := selected_index - file_tree_view_height + 1 } }
    else a

/-- `App::handle_mouse_event`. -/
def App.handle_mouse_event (a : App) (m : MouseEvt) (term_width term_height : Nat) : App :=
  let file_tree_width := fileTreeWidth term_width
  match m.kind with
  | .scrollUp =>
    if m.column < file_tree_width then
      { a with directory_view :=
          { a.directory_view with scroll_offset := a.directory_view.scroll_offset - 1 } }
    else a.modifyActivePage (fun page => { page with scroll_offset := page.scroll_offset - 1 })
  | .scrollDown =>
    if m.column < file_tree_width then
      let view_height := term_height - 2
      if a.directory_view.entries.length > view_height then
        let new_offset := min (a.directory_view.scroll_offset + 1)
                              (a.directory_view.entries.length - view_height)
        { a with directory_view := { a.directory_view with scroll_offset := new_offset } }
      else a
    else
      a.modifyActivePage (fun page =>
        let total_lines := page.get_all_lines.length
        let view_height := term_height - 2
        if total_lines > view_height then
          { page with scroll_offset := min (page.scroll_offset + 1) (total_lines - view_height) }
        else page)
  | .downClick =>
    if m.column < file_tree_width then
      let a := { a with active_pane := .FileTree, mode := .FileTree }
      let target_index := (m.row - 1) + a.directory_view.scroll_offset
      if a.directory_view.entries ≠ [] then
        let max_index := a.directory_view.entries.length - 1
        { a with directory_view :=
            { a.directory_view with selected_index := min target_index max_index } }
      else a
    else
      let editor_start_col := file_tree_width + 1
      if m.row = 0 ∧ m.column ≥ editor_start_col ∧ a.tabs ≠ [] then
        match tabClickIndex a.tabs 0 editor_start_col m.column with
        | some i => { a with active_tab_index := i }
        | none => a
      else if m.row > 0 ∧ m.column ≥ editor_start_col ∧ a.tabs ≠ [] then
        let a := { a with active_pane := .Editor, mode := .Edit }
        a.modifyActivePage (fun page =>
          let line_gutter_width := (toString page.get_all_lines.length).length + 2
          let adjusted_row := (m.row - 1) + page.scroll_offset
          let adjusted_col := m.column - (editor_start_col + line_gutter_width)
          page.move_cursor_to adjusted_row adjusted_col)
      else a
  | .otherKind => a

/-- `App::handle_key_event`. -/
def App.handle_key_event (o : Oracle) (a : App) (event : KeyEvent) (term_width term_height : Nat) :
    Option App :=
  if a.mode = .ConfirmDelete then some (a.handle_delete_confirm_event o event.code)
  else if a.mode = .PromptNewFile ∨ a.mode = .PromptNewDirectory ∨ a.mode = .PromptRename then
    some (a.handle_prompt_input_event o event.code)
  else
    let r :=
      match a.active_pane with
      | .Editor => a.handle_editor_event o event
      | .FileTree => a.handle_file_tree_event o event.code
    r.map (fun a => a.scroll_to_cursor term_width term_height)

/-- `App::handle_event`: clears the status message, then dispatches. -/
def App.handle_event (o : Oracle) (a : App) (event : Event) (term_width term_height : Nat) :
    Option App :=
  let a := { a with status_message := [] }
  match event with
  | .key k => a.handle_key_event o k term_width term_height
  | .mouse m => some (a.handle_mouse_event m term_width term_height)
  | .otherEvent => some a

/-- The reachable session states: an initial state produced by `App::new`, or
the successful result of handling one more event (each event may see a
different filesystem oracle). -/
inductive Reachable : App → Prop where
  | init (o : Oracle) (cwd : FsPath) (ip : Option FsPath) (a : App) :
      App.new o cwd ip = .ok a → Reachable a
  | step (o : Oracle) (a a' : App) (ev : Event) (tw th : Nat) :
      Reachable a → App.handle_event o a ev tw th = some a' → Reachable a'

/-- Modelled from the spec: "all `(row, column)` occurrences of the query as a
literal substring" for one line — EVERY position where the query occurs,
overlapping occurrences included.  Used only to compare the spec's wording
with the code's match list. -/
def specLineOccurrences (q l : Str) : List Nat :=
  (List.range l.length).filter (fun c => List.isPrefixOf q (l.drop c))

/-- Modelled from the spec: all occurrences over the lines in row-major,
left-to-right order (rows counted from `r0`). -/
def specFindMatchesFrom (q : Str) : List Str → Nat → List (Nat × Nat)
  | [], _ => []
  | l :: rest, r0 =>
    (specLineOccurrences q l).map (fun col => (r0, col)) ++ specFindMatchesFrom q rest (r0 + 1)

/-- Modelled from the spec: the full match list its wording asks for. -/
def specFindMatches (q : Str) (lines : List Str) : List (Nat × Nat) :=
  specFindMatchesFrom q lines 0

/-- Decidable check that the query occurs in a line at a given BYTE offset:
the offset is a character boundary and the query is a prefix of the suffix
starting there. -/
def byteOccur (q l : Str) (c : Nat) : Bool :=
  match splitAtByte l c with
  | some pr => List.isPrefixOf q pr.2
  | none => false

/-! Concrete scaffolding: events, oracles and short reachable traces used by
the counterexamples and witnesses below. -/

/-- A plain character key press. -/
def evChar (c : Char) : Event := Event.key ⟨KeyCode.char c, KeyMods.noMods⟩

/-- The Enter key. -/
def evEnter : Event := Event.key ⟨KeyCode.enter, KeyMods.noMods⟩

/-- The Escape key. -/
def evEsc : Event := Event.key ⟨KeyCode.esc, KeyMods.noMods⟩

/-- The Tab key. -/
def evTab : Event := Event.key ⟨KeyCode.tab, KeyMods.noMods⟩

/-- The Right arrow key. -/
def evRight : Event := Event.key ⟨KeyCode.right, KeyMods.noMods⟩

/-- A test filesystem: the browsed directory lists one plain file `f` whose
content is `"aé"`; every mutating call fails. -/
def oracleTest : Oracle :=
  { readDir := fun _ => .ok [[("f").toList]]
  , isDir := fun _ => false
  , removeDirAll := fun _ => .error (("denied").toList)
  , removeFile := fun _ => .error (("denied").toList)
  , writeFs := fun _ _ => .error (("disk full").toList)
  , createDir := fun _ => .error (("denied").toList)
  , renameFs := fun _ _ => .error (("denied").toList)
  , readToString := fun _ => some (("aé").toList) }

/-- The directory view produced by `oracleTest` for the root path. -/
def dvTest : DirectoryView := ⟨[], [[("f").toList]], 0, 0⟩

/-- The state `App::new` yields under `oracleTest` with no CLI argument. -/
def appStart : App :=
  { tabs := [], active_tab_index := 0, directory_view := dvTest
  , active_pane := .FileTree, mode := .FileTree
  , command_buffer := [], status_message := [], should_quit := false
  , find_query := [], find_matches := [], current_match_index := 0
  , path_to_delete := none, path_to_rename := none, find_navigation_active := false }

/-- `appStart` after Tab: Editor pane, Command mode. -/
def appCmd : App := (App.handle_event oracleTest appStart evTab 80 24).getD appStart

/-- `appCmd` after typing `w`. -/
def appCmdW : App := (App.handle_event oracleTest appCmd (evChar 'w') 80 24).getD appCmd

/-- `appCmdW` after Enter: the `w` command on an empty tab set. -/
def appPromptSave : App := (App.handle_event oracleTest appCmdW evEnter 80 24).getD appCmdW

/-- `appPromptSave` after typing `x` (a file name in the save prompt). -/
def appPromptSaveX : App :=
  (App.handle_event oracleTest appPromptSave (evChar 'x') 80 24).getD appPromptSave

/-- `appStart` after typing `r`. -/
def appTreeR : App := (App.handle_event oracleTest appStart (evChar 'r') 80 24).getD appStart

/-- `appTreeR` after typing `n` (file-tree command buffer `rn`). -/
def appTreeRN : App := (App.handle_event oracleTest appTreeR (evChar 'n') 80 24).getD appTreeR

/-- `appTreeRN` after Enter: the rename prompt, with `path_to_rename` set. -/
def appRenamePrompt : App :=
  (App.handle_event oracleTest appTreeRN evEnter 80 24).getD appTreeRN

/-- The state `App::new` yields under `oracleTest` with the file `f` as CLI
argument: one tab whose single line is `aé`, Edit mode. -/
def appEdit : App :=
  { tabs := [Page.from_file oracleTest (some [("f").toList])], active_tab_index := 0
  , directory_view := dvTest, active_pane := .Editor, mode := .Edit
  , command_buffer := [], status_message := [], should_quit := false
  , find_query := [], find_matches := [], current_match_index := 0
  , path_to_delete := none, path_to_rename := none, find_navigation_active := false }

/-- `appEdit` after Right (cursor at column 1). -/
def appEditR1 : App := (App.handle_event oracleTest appEdit evRight 80 24).getD appEdit

/-- `appEditR1` after Right (cursor at column 2, the end of `aé`). -/
def appEditR2 : App := (App.handle_event oracleTest appEditR1 evRight 80 24).getD appEditR1

/-- Oracle for the delete-failure scenario: removing fails, and re-listing the
directory would return a listing (`g`) different from the current snapshot
(`f`). -/
def oracleDeleteFail : Oracle :=
  { oracleTest with readDir := fun _ => .ok [[("g").toList]] }

/-- Oracle for the delete-success scenario: removing succeeds and re-listing
returns `g`. -/
def oracleDeleteOk : Oracle :=
  { oracleDeleteFail with
      removeFile := fun _ => .ok (),
      removeDirAll := fun _ => .ok (),
      renameFs := fun _ _ => .ok (),
      writeFs := fun _ _ => .ok (),
      createDir := fun _ => .ok (),
      readToString := fun _ => none }

/-- A session in `ConfirmDelete` mode with the pending path `f` selected. -/
def appConfirmDelete : App :=
  { appStart with mode := .ConfirmDelete, path_to_delete := some [("f").toList] }

/-- A buffer whose lines are `foobar` and `xfoo` (the spec's find scenario). -/
def pageFoo : Page :=
  { Page.new with current := Zipper.from_str (("foobar").toList)
                , after := [("xfoo").toList] }

/-- A session in Find mode on `pageFoo`, before any query input. -/
def appFind0 : App :=
  { appStart with tabs := [pageFoo], active_pane := .Editor, mode := .Find }

/-- `appFind0` after typing `f`. -/
def appFindF : App := (App.handle_event oracleTest appFind0 (evChar 'f') 80 24).getD appFind0

/-- `appFindF` after typing `o` (query `fo`). -/
def appFindFo : App := (App.handle_event oracleTest appFindF (evChar 'o') 80 24).getD appFindF

/-- `appFindFo` after typing `o` (query `foo`). -/
def appFindFoo : App := (App.handle_event oracleTest appFindFo (evChar 'o') 80 24).getD appFindFo

/-- `appFindFoo` after Enter (navigation active). -/
def appFindNav : App := (App.handle_event oracleTest appFindFoo evEnter 80 24).getD appFindFoo

/-- `appFindNav` after `n` (next match). -/
def appFindN1 : App := (App.handle_event oracleTest appFindNav (evChar 'n') 80 24).getD appFindNav

/-- `appFindN1` after `n` again (wrap around). -/
def appFindN2 : App := (App.handle_event oracleTest appFindN1 (evChar 'n') 80 24).getD appFindN1

/-- A buffer whose single line is `aaa`. -/
def pageAAA : Page := { Page.new with current := Zipper.from_str (("aaa").toList) }

/-- A session in Find mode on `pageAAA` with current query `a`. -/
def appFindA : App :=
  { appStart with
      tabs := [pageAAA],
      active_pane := .Editor,
      mode := .Find,
      find_query := ("a").toList,
      find_matches := [(0, 0), (0, 1), (0, 2)] }

/-- `appFindA` after typing a second `a` (query `aa`). -/
def appFindAA : App := (App.handle_event oracleTest appFindA (evChar 'a') 80 24).getD appFindA

/-- The page whose single line is `aé` with the cursor at column 2 (the line
end), as produced by typing `a` then `é`. -/
def pageAcute : Page :=
  { Page.new with current := (Zipper.from_str (("aé").toList)).set_cursor_position 2 }

/-- The tab-index bound of claim C10: whenever tabs exist, the active index is
in range. -/
def TabInv (a : App) : Prop := a.tabs ≠ [] → a.active_tab_index < a.tabs.length

/-- The pending-path invariant that actually holds (the provable direction of
the spec's iff): a dialog mode always has its pending path. -/
def PathInv (a : App) : Prop :=
  (a.mode = Mode.ConfirmDelete → a.path_to_delete.isSome) ∧
  (a.mode = Mode.PromptRename → a.path_to_rename.isSome)

/-- A mode that is neither of the two path-carrying dialog modes. -/
def ModeOk (m : Mode) : Prop := m ≠ Mode.ConfirmDelete ∧ m ≠ Mode.PromptRename

/-- Both machine invariants together (used for the inductive preservation
proof). -/
def AppInv (a : App) : Prop := TabInv a ∧ PathInv a

/-- The mode either did not change across a step, or changed to a mode that
carries no pending path — either way the pending-path invariant survives. -/
def ModeSafe (a b : App) : Prop :=
  b.mode = a.mode ∨ (b.mode ≠ Mode.ConfirmDelete ∧ b.mode ≠ Mode.PromptRename)

/-! ### Helper lemmas: zipper and page algebra -/

theorem Zipper.to_string_from_str (s : Str) : (Zipper.from_str s).to_string = s := by
  simp [Zipper.from_str, Zipper.to_string]

theorem Zipper.from_str_set (L : Str) (c : Nat) :
    (Zipper.from_str L).set_cursor_position c
      = ⟨L.take (min c L.length), (L.drop (min c L.length)).reverse⟩ := by
  simp [Zipper.from_str, Zipper.set_cursor_position]

theorem Zipper.to_string_set (z : Zipper) (n : Nat) :
    (z.set_cursor_position n).to_string = z.to_string := by
  simp [Zipper.set_cursor_position, Zipper.to_string]

theorem Zipper.cursor_from_str_set (L : Str) (c : Nat) (hc : c ≤ L.length) :
    ((Zipper.from_str L).set_cursor_position c).cursor_position = c := by
  rw [Zipper.from_str_set]
  simp [Zipper.cursor_position, List.length_take]
  omega

theorem byteLen_cons (c : Char) (l : Str) : byteLen (c :: l) = c.utf8Size + byteLen l := by
  simp [byteLen]

theorem byteLen_ascii (L : Str) (h : ∀ ch ∈ L, ch.utf8Size = 1) : byteLen L = L.length := by
  induction L with
  | nil => rfl
  | cons c rest ih =>
    simp only [byteLen, List.map_cons, List.sum_cons, List.length_cons] at *
    rw [h c (by simp), ih (fun x hx => h x (by simp [hx]))]
    omega

theorem splitAtByte_ascii (L : Str) (c : Nat) (hc : c ≤ L.length)
    (h : ∀ ch ∈ L, ch.utf8Size = 1) :
    splitAtByte L c = some (L.take c, L.drop c) := by
  induction L generalizing c with
  | nil =>
    have : c = 0 := by simpa using hc
    subst this
    rfl
  | cons ch rest ih =>
    cases c with
    | zero => rfl
    | succ n =>
      have hch : ch.utf8Size = 1 := h ch (by simp)
      have hrec : splitAtByte rest n = some (rest.take n, rest.drop n) :=
        ih n (by simpa using hc) (fun x hx => h x (by simp [hx]))
      simp [splitAtByte, hch, hrec]

theorem insert_newline_ascii (L : Str) (c : Nat) (bs as : List Str) (fp : Option FsPath)
    (so ho : Nat) (hc : c ≤ L.length) (hascii : ∀ ch ∈ L, ch.utf8Size = 1) :
    Page.insert_newline ⟨bs, (Zipper.from_str L).set_cursor_position c, as, fp, so, ho⟩
      = some ⟨bs ++ [L.take c], ⟨[], (L.drop c).reverse⟩, as, fp, so, ho⟩ := by
  have hmin : min c L.length = c := Nat.min_eq_left hc
  have hz : (Zipper.from_str L).set_cursor_position c = ⟨L.take c, (L.drop c).reverse⟩ := by
    rw [Zipper.from_str_set, hmin]
  have hsplit : splitAtByte L c = some (L.take c, L.drop c) := splitAtByte_ascii L c hc hascii
  simp only [Page.insert_newline, hz, Zipper.to_string, Zipper.cursor_position,
             List.reverse_reverse, List.take_append_drop, List.length_take, hmin, hsplit,
             Page.move_down, Zipper.from_str, Zipper.set_cursor_position]
  simp only [List.nil_append, Nat.zero_min, List.take_zero, List.drop_zero, min_assoc, min_self]
  rw [hmin, hsplit]

theorem delete_merge (prev rest : Str) (bs as : List Str) (fp : Option FsPath) (so ho : Nat) :
    Page.delete ⟨bs ++ [prev], ⟨[], rest.reverse⟩, as, fp, so, ho⟩
      = ⟨bs, (Zipper.from_str (prev ++ rest)).set_cursor_position (byteLen prev), as, fp, so, ho⟩ := by
  simp only [Page.delete, Zipper.cursor_position]
  simp [Zipper.to_string, Zipper.from_str]

/-! ### Helper lemmas: line splitting and joining -/

theorem splitNewline_ne_nil (s : Str) : splitNewline s ≠ [] := by
  cases s with
  | nil => simp [splitNewline]
  | cons c rest =>
    simp only [splitNewline]
    split
    · simp
    · split <;> simp

theorem mem_of_mem_splitNewline (s : Str) : ∀ l ∈ splitNewline s, ∀ ch ∈ l, ch ∈ s := by
  induction s with
  | nil =>
    intro l hl ch hch
    simp [splitNewline] at hl
    subst hl
    simp at hch
  | cons c rest ih =>
    intro l hl ch hch
    simp only [splitNewline] at hl
    by_cases hc : c = '\n'
    · rw [if_pos hc] at hl
      rcases List.mem_cons.mp hl with h | h
      · subst h; simp at hch
      · exact List.mem_cons_of_mem _ (ih l h ch hch)
    · rw [if_neg hc] at hl
      rcases hsp : splitNewline rest with _ | ⟨a, as⟩
      · exact absurd hsp (splitNewline_ne_nil rest)
      · rw [hsp] at hl
        rcases List.mem_cons.mp hl with h | h
        · subst h
          rcases List.mem_cons.mp hch with h2 | h2
          · subst h2; simp
          · exact List.mem_cons_of_mem _ (ih a (by rw [hsp]; simp) ch h2)
        · exact List.mem_cons_of_mem _ (ih l (by rw [hsp]; simp [h]) ch hch)

theorem joinLines_cons_cons (l a : Str) (ls : List Str) :
    joinLines (l :: a :: ls) = l ++ '\n' :: joinLines (a :: ls) := rfl

theorem joinLines_splitNewline (s : Str) : joinLines (splitNewline s) = s := by
  induction s with
  | nil => rfl
  | cons c rest ih =>
    simp only [splitNewline]
    by_cases hc : c = '\n'
    · rw [if_pos hc]
      rcases hsp : splitNewline rest with _ | ⟨a, as⟩
      · exact absurd hsp (splitNewline_ne_nil rest)
      · rw [hsp] at ih
        rw [joinLines_cons_cons, ih, hc]
        simp
    · rw [if_neg hc]
      rcases hsp : splitNewline rest with _ | ⟨a, as⟩
      · exact absurd hsp (splitNewline_ne_nil rest)
      · rw [hsp] at ih
        cases as with
        | nil =>
          simp only [joinLines] at ih ⊢
          rw [ih]
        | cons b bs =>
          rw [joinLines_cons_cons] at ih
          rw [joinLines_cons_cons, List.cons_append, ih]

theorem stripTrailingCR_of_not_mem (l : Str) (h : '\r' ∉ l) : stripTrailingCR l = l := by
  unfold stripTrailingCR
  split
  · next heq =>
    obtain ⟨h1, h2⟩ := List.mem_getLast?_eq_getLast (l := l) (x := '\r') heq
    exact absurd (h2 ▸ List.getLast_mem h1) h
  · rfl

theorem rustLines_of_plain (s : Str) (h1 : '\r' ∉ s) (h2 : s.getLast? ≠ some '\n')
    (hne : s ≠ []) : rustLines s = splitNewline s := by
  unfold rustLines
  rw [if_neg hne, if_neg h2]
  have hstrip : ∀ l ∈ (splitNewline s).dropLast, stripTrailingCR l = l := by
    intro l hl
    refine stripTrailingCR_of_not_mem l (fun hcr => h1 ?_)
    exact mem_of_mem_splitNewline s l (List.dropLast_subset _ hl) '\r' hcr
  rw [List.map_congr_left hstrip, List.map_id']
  exact List.dropLast_append_getLast? _ (by
    rw [List.getLast?_eq_getLast _ (splitNewline_ne_nil s)]
    rfl)

/-! ### Helper lemmas: search-match soundness -/

theorem matchIndicesAux_sound (q : Str) :
    ∀ (s : Str) (b skip x : Nat), x ∈ matchIndicesAux q s b skip →
      ∃ pre suf, s = pre ++ q ++ suf ∧ x = b + byteLen pre := by
  intro s
  induction s with
  | nil => intro b skip x hx; simp [matchIndicesAux] at hx
  | cons c rest ih =>
    intro b skip x hx
    cases skip with
    | succ k =>
      obtain ⟨pre, suf, hs, hv⟩ := ih (b + c.utf8Size) k x hx
      exact ⟨c :: pre, suf, by rw [List.cons_append, List.cons_append, ← hs],
             by rw [byteLen_cons]; omega⟩
    | zero =>
      simp only [matchIndicesAux] at hx
      split at hx
      · next hcond =>
        rcases List.mem_cons.mp hx with hxb | hxin
        · obtain ⟨t, ht⟩ := List.isPrefixOf_iff_prefix.mp hcond.2
          exact ⟨[], t, by rw [List.nil_append, ht], by simp [byteLen, hxb]⟩
        · obtain ⟨pre, suf, hs, hv⟩ := ih (b + c.utf8Size) (q.length - 1) x hxin
          exact ⟨c :: pre, suf, by rw [List.cons_append, List.cons_append, ← hs],
                 by rw [byteLen_cons]; omega⟩
      · obtain ⟨pre, suf, hs, hv⟩ := ih (b + c.utf8Size) 0 x hx
        exact ⟨c :: pre, suf, by rw [List.cons_append, List.cons_append, ← hs],
               by rw [byteLen_cons]; omega⟩

theorem splitAtByte_byteLen_prefix (pre rest : Str) :
    splitAtByte (pre ++ rest) (byteLen pre) = some (pre, rest) := by
  induction pre with
  | nil => simp [byteLen, splitAtByte]
  | cons c p ih =>
    have hpos : 0 < c.utf8Size := Char.utf8Size_pos c
    obtain ⟨m, hm⟩ : ∃ m, byteLen (c :: p) = m + 1 := ⟨byteLen (c :: p) - 1, by
      rw [byteLen_cons]; omega⟩
    rw [hm, List.cons_append]
    simp only [splitAtByte]
    have hle : c.utf8Size ≤ m + 1 := by rw [byteLen_cons] at hm; omega
    rw [if_pos hle]
    have hsub : m + 1 - c.utf8Size = byteLen p := by rw [byteLen_cons] at hm; omega
    rw [hsub, ih]

theorem byteOccur_of_parts (q pre suf : Str) :
    byteOccur q (pre ++ q ++ suf) (byteLen pre) = true := by
  unfold byteOccur
  rw [List.append_assoc, splitAtByte_byteLen_prefix]
  exact List.isPrefixOf_iff_prefix.mpr (List.prefix_append q suf)

theorem findMatchesFrom_sound (q : Str) :
    ∀ (lines : List Str) (r0 r c : Nat), (r, c) ∈ findMatchesFrom q lines r0 →
      ∃ i l, lines.get? i = some l ∧ r = r0 + i ∧ byteOccur q l c = true := by
  intro lines
  induction lines with
  | nil => intro r0 r c hx; simp [findMatchesFrom] at hx
  | cons l rest ih =>
    intro r0 r c hx
    simp only [findMatchesFrom, List.mem_append] at hx
    rcases hx with hx | hx
    · obtain ⟨col, hcol, heq⟩ := List.mem_map.mp hx
      have hr : r0 = r := congrArg Prod.fst heq
      have hc : col = c := congrArg Prod.snd heq
      obtain ⟨pre, suf, hs, hv⟩ := matchIndicesAux_sound q l 0 0 col hcol
      refine ⟨0, l, rfl, by omega, ?_⟩
      have : c = byteLen pre := by omega
      rw [this, hs]
      exact byteOccur_of_parts q pre suf
    · obtain ⟨i, l', h1, h2, h3⟩ := ih (r0 + 1) r c hx
      exact ⟨i + 1, l', h1, by omega, h3⟩

/-! ### Claims C5, C7, C9 -/

/-- C5 (amended): for every line `L` of single-byte (ASCII-width) characters
and every cursor column `c ≤ length L`, `insert_newline` at column `c`
followed by `delete` at column 0 of the resulting next line restores the
single original line `L`, with the cursor at column `c` and on the original
row.  (The restriction to single-byte characters is forced by the
counterexample: the source uses the character position as a byte index.) -/
theorem c5_split_merge_ascii (L : Str) (c : Nat) (bs as : List Str) (fp : Option FsPath)
    (so ho : Nat) (hc : c ≤ L.length) (hascii : ∀ ch ∈ L, ch.utf8Size = 1) :
    (Page.insert_newline ⟨bs, (Zipper.from_str L).set_cursor_position c, as, fp, so, ho⟩).map
        (fun p1 => ((p1.delete).get_all_lines, (p1.delete).current.cursor_position,
                    (p1.delete).cursor_row))
      = some (bs ++ [L] ++ as, c, bs.length) := by
  have hbl : byteLen (L.take c) = c := by
    rw [byteLen_ascii _ (fun ch hx => hascii ch (List.take_subset _ _ hx)), List.length_take]
    omega
  rw [insert_newline_ascii L c bs as fp so ho hc hascii]
  simp only [Option.map_some']
  rw [delete_merge, List.take_append_drop, hbl]
  simp only [Page.get_all_lines, Page.cursor_row, Zipper.to_string_set, Zipper.to_string_from_str,
             Zipper.cursor_from_str_set L c hc]

/-- C5 witness: the amended statement evaluated at `L = "ab"`, `c = 1`. -/
theorem c5_split_merge_witness :
    (1 ≤ (("ab").toList).length ∧ ∀ ch ∈ ("ab").toList, ch.utf8Size = 1) ∧
    (Page.insert_newline
        ⟨[], (Zipper.from_str (("ab").toList)).set_cursor_position 1, [], none, 0, 0⟩).map
        (fun p1 => ((p1.delete).get_all_lines, (p1.delete).current.cursor_position,
                    (p1.delete).cursor_row))
      = some ([] ++ [("ab").toList] ++ [], 1, List.length ([] : List Str)) :=
  ⟨⟨by decide, by decide⟩,
   c5_split_merge_ascii (("ab").toList) 1 [] [] none 0 0 (by decide) (by decide)⟩

/-- C5 counterexample: for the line `aé` (two characters, three bytes) with
the cursor at column 2 — a column allowed by the claim, since
`2 ≤ length "aé"` — `insert_newline` aborts (Rust panics in
`String::split_at`, the character position 2 not being a byte boundary), so
the split/merge composition does not restore the line. -/
theorem c5_split_merge_counterexample :
    Page.insert_newline pageAcute = none ∧
    (Page.insert_newline pageAcute).map
        (fun p1 => ((p1.delete).get_all_lines, (p1.delete).current.cursor_position,
                    (p1.delete).cursor_row))
      ≠ some ([("aé").toList], 2, 0) ∧
    2 ≤ (("aé").toList).length := by decide

/-- C7 (amended): for every file content with no carriage return and no
trailing newline, loading it into a buffer and then saving (joining
`get_all_lines` with `\n`, exactly what `save_active_file` writes) returns
the content unchanged.  (The counterexample forces the two exclusions: a
trailing newline is dropped by `str::lines`, and `\r\n` is normalized to
`\n`.) -/
theorem c7_load_save_roundtrip (s : Str) (h1 : '\r' ∉ s) (h2 : s.getLast? ≠ some '\n') :
    joinLines ((Page.new.load_from_string s).get_all_lines) = s := by
  by_cases hne : s = []
  · subst hne; rfl
  · have hr : rustLines s = splitNewline s := rustLines_of_plain s h1 h2 hne
    rcases hsp : splitNewline s with _ | ⟨a, as⟩
    · exact absurd hsp (splitNewline_ne_nil s)
    · simp only [Page.load_from_string, hr, hsp, Page.get_all_lines, Zipper.to_string_from_str,
                 List.nil_append]
      rw [show ([a] ++ as : List Str) = a :: as from rfl, ← hsp, joinLines_splitNewline]

/-- C7 witness: the amended statement evaluated at the content `a\nb`. -/
theorem c7_load_save_witness :
    ('\r' ∉ ("a\nb").toList) ∧ (("a\nb").toList.getLast? ≠ some '\n') ∧
    joinLines ((Page.new.load_from_string (("a\nb").toList)).get_all_lines) = ("a\nb").toList :=
  ⟨by decide, by decide, c7_load_save_roundtrip (("a\nb").toList) (by decide) (by decide)⟩

/-- C7 counterexample: loading the content `a\n` and saving writes back `a` —
the trailing newline the source text had is removed (`str::lines` drops the
final line terminator and the save joins with bare `\n`). -/
theorem c7_load_save_counterexample :
    joinLines ((Page.new.load_from_string (("a\n").toList)).get_all_lines) = ("a").toList ∧
    ("a").toList ≠ ("a\n").toList := by decide

/-- C9 (confirmed): for every document and every row below the number of
lines, `move_cursor_to row col` leaves `get_all_lines` unchanged and sets
`cursor_row` to `row` (for any column, which is clamped independently). -/
theorem c9_move_cursor_reconstructs (p : Page) (row col : Nat)
    (h : row < p.get_all_lines.length) :
    (p.move_cursor_to row col).get_all_lines = p.get_all_lines ∧
    (p.move_cursor_to row col).cursor_row = row := by
  have hmin : min row (p.get_all_lines.length - 1) = row := by omega
  have hkeptlen : (p.get_all_lines.take (row + 1)).length = row + 1 := by
    rw [List.length_take]; omega
  have hkeptne : p.get_all_lines.take (row + 1) ≠ [] := by
    intro h0
    rw [h0] at hkeptlen
    simp at hkeptlen
  simp only [Page.move_cursor_to, hmin]
  simp only [Page.get_all_lines] at hkeptne ⊢
  constructor
  · rw [Zipper.to_string_set, Zipper.to_string_from_str,
        List.getLast?_eq_getLast _ hkeptne, Option.getD_some,
        List.dropLast_append_getLast, List.take_append_drop]
  · simp only [Page.cursor_row]
    rw [List.length_dropLast]
    simp only [Page.get_all_lines] at hkeptlen
    rw [hkeptlen]
    omega

/-- C9 witness: the statement evaluated on the two-line buffer `foobar` /
`xfoo` at row 1, column 2. -/
theorem c9_move_cursor_witness :
    1 < pageFoo.get_all_lines.length ∧
    ((pageFoo.move_cursor_to 1 2).get_all_lines = pageFoo.get_all_lines ∧
     (pageFoo.move_cursor_to 1 2).cursor_row = 1) :=
  ⟨by decide, c9_move_cursor_reconstructs pageFoo 1 2 (by decide)⟩

/-! ### Reachability of the concrete trace states -/

theorem reachable_appStart : Reachable appStart :=
  Reachable.init oracleTest [] none appStart rfl

theorem reachable_appCmd : Reachable appCmd :=
  Reachable.step oracleTest appStart appCmd evTab 80 24 reachable_appStart rfl

theorem reachable_appCmdW : Reachable appCmdW :=
  Reachable.step oracleTest appCmd appCmdW (evChar 'w') 80 24 reachable_appCmd rfl

theorem reachable_appPromptSave : Reachable appPromptSave :=
  Reachable.step oracleTest appCmdW appPromptSave evEnter 80 24 reachable_appCmdW rfl

theorem reachable_appPromptSaveX : Reachable appPromptSaveX :=
  Reachable.step oracleTest appPromptSave appPromptSaveX (evChar 'x') 80 24
    reachable_appPromptSave rfl

theorem reachable_appTreeR : Reachable appTreeR :=
  Reachable.step oracleTest appStart appTreeR (evChar 'r') 80 24 reachable_appStart rfl

theorem reachable_appTreeRN : Reachable appTreeRN :=
  Reachable.step oracleTest appTreeR appTreeRN (evChar 'n') 80 24 reachable_appTreeR rfl

theorem reachable_appRenamePrompt : Reachable appRenamePrompt :=
  Reachable.step oracleTest appTreeRN appRenamePrompt evEnter 80 24 reachable_appTreeRN rfl

theorem reachable_appEdit : Reachable appEdit :=
  Reachable.init oracleTest [] (some [("f").toList]) appEdit rfl

theorem reachable_appEditR1 : Reachable appEditR1 :=
  Reachable.step oracleTest appEdit appEditR1 evRight 80 24 reachable_appEdit rfl

theorem reachable_appEditR2 : Reachable appEditR2 :=
  Reachable.step oracleTest appEditR1 appEditR2 evRight 80 24 reachable_appEditR1 rfl

theorem reachable_appConfirmDelete : Reachable appConfirmDelete := by
  have h1 : Reachable ((App.handle_event oracleTest appStart (evChar 'd') 80 24).getD appStart) :=
    Reachable.step oracleTest appStart _ (evChar 'd') 80 24 reachable_appStart rfl
  exact Reachable.step oracleTest _ appConfirmDelete evEnter 80 24 h1 rfl

/-! ### Claims C1 (counterexample), C2, C3, C4 (counterexamples), C6, C8 (counterexample) -/

/-- C1 counterexample: from the reachable rename-prompt state (`rn` + Enter on
a selected entry), pressing Escape cancels the dialog — the mode returns to
`FileTree` — but `path_to_rename` is left set, violating the claimed iff after
the event is fully handled. -/
theorem c1_counterexample :
    Reachable appRenamePrompt ∧
    (App.handle_event oracleTest appRenamePrompt evEsc 80 24).isSome ∧
    ((App.handle_event oracleTest appRenamePrompt evEsc 80 24).getD
        appRenamePrompt).path_to_rename.isSome ∧
    ((App.handle_event oracleTest appRenamePrompt evEsc 80 24).getD appRenamePrompt).mode
      ≠ Mode.PromptRename :=
  ⟨reachable_appRenamePrompt, by decide, by decide, by decide⟩

/-- C2 counterexample: in the reachable `PromptSave` state with the non-empty
file name `x`, when Enter is pressed and the write fails, the session does NOT
stay in `PromptSave` and the buffer IS cleared: the mode becomes `Command` and
the command buffer becomes empty. -/
theorem c2_counterexample :
    Reachable appPromptSaveX ∧
    appPromptSaveX.mode = Mode.PromptSave ∧
    appPromptSaveX.command_buffer ≠ [] ∧
    oracleTest.writeFs (FsPath.push appPromptSaveX.directory_view.path
        appPromptSaveX.command_buffer) [] = Except.error (("disk full").toList) ∧
    (App.handle_event oracleTest appPromptSaveX evEnter 80 24).isSome ∧
    ((App.handle_event oracleTest appPromptSaveX evEnter 80 24).getD appPromptSaveX).mode
      = Mode.Command ∧
    ((App.handle_event oracleTest appPromptSaveX evEnter 80 24).getD
        appPromptSaveX).command_buffer = [] :=
  ⟨reachable_appPromptSaveX, by decide, by decide, rfl, by decide, by decide, by decide⟩

/-- C3 counterexample: confirming a delete whose OS call fails leaves the
Directory Snapshot untouched — it is NOT rebuilt, although re-listing the
directory would have produced a different listing (`g` instead of `f`). -/
theorem c3_counterexample :
    Reachable appConfirmDelete ∧
    oracleDeleteFail.removeFile [("f").toList] = Except.error (("denied").toList) ∧
    DirectoryView.new oracleDeleteFail appConfirmDelete.directory_view.path
      = Except.ok ⟨[], [[("g").toList]], 0, 0⟩ ∧
    (App.handle_delete_confirm_event oracleDeleteFail appConfirmDelete
        (KeyCode.char 'y')).directory_view = appConfirmDelete.directory_view ∧
    appConfirmDelete.directory_view ≠ ⟨[], [[("g").toList]], 0, 0⟩ :=
  ⟨reachable_appConfirmDelete, rfl, rfl, by decide, by decide⟩

/-- C4 counterexample: with no tabs, executing `w` (Enter on the command
buffer `w`) is not a no-op on the non-status fields — the mode changes from
`Command` to `PromptSave`. -/
theorem c4_counterexample :
    Reachable appCmdW ∧
    appCmdW.tabs = [] ∧
    appCmdW.mode = Mode.Command ∧
    appCmdW.command_buffer = ("w").toList ∧
    (App.handle_event oracleTest appCmdW evEnter 80 24).isSome ∧
    ((App.handle_event oracleTest appCmdW evEnter 80 24).getD appCmdW).mode
      = Mode.PromptSave ∧
    ((App.handle_event oracleTest appCmdW evEnter 80 24).getD appCmdW).mode ≠ appCmdW.mode :=
  ⟨reachable_appCmdW, by decide, by decide, by decide, by decide, by decide, by decide⟩

/-- C6 (code bug): the reachable state with one tab whose line is `aé` and the
cursor at column 2 — obtained by opening the file and pressing Right twice —
aborts on Enter: `insert_newline` passes the character position 2 to
`String::split_at` as a byte index, which is not a character boundary of the
3-byte line, so the Rust program panics instead of handling the event. -/
theorem c6_panic_on_multibyte_newline :
    Reachable appEditR2 ∧
    (appEditR2.tabs.get? 0).map (fun p => (p.current.to_string, p.current.cursor_position))
      = some ((("aé").toList), 2) ∧
    App.handle_event oracleTest appEditR2 evEnter 80 24 = none :=
  ⟨reachable_appEditR2, by decide, by decide⟩

/-- C8 counterexample: with the single buffer line `aaa`, typing the query
`aa` yields the match list `[(0, 0)]` — `str::match_indices` reports only
non-overlapping occurrences — while the claim's "every literal occurrence"
also contains the overlapping occurrence at column 1. -/
theorem c8_counterexample :
    (App.handle_event oracleTest appFindA (evChar 'a') 80 24).isSome ∧
    ((App.handle_event oracleTest appFindA (evChar 'a') 80 24).getD appFindA).find_query
      = ("aa").toList ∧
    ((App.handle_event oracleTest appFindA (evChar 'a') 80 24).getD appFindA).find_matches
      = [(0, 0)] ∧
    specFindMatches (("aa").toList) pageAAA.get_all_lines = [(0, 0), (0, 1)] ∧
    ((App.handle_event oracleTest appFindA (evChar 'a') 80 24).getD appFindA).find_matches
      ≠ specFindMatches (("aa").toList) pageAAA.get_all_lines :=
  ⟨by decide, by decide, by decide, by decide, by decide⟩

@[simp] theorem modifyActivePage_mode (a : App) (f : Page → Page) :
    (a.modifyActivePage f).mode = a.mode := by
  unfold App.modifyActivePage; split <;> rfl

@[simp] theorem modifyActivePage_idx (a : App) (f : Page → Page) :
    (a.modifyActivePage f).active_tab_index = a.active_tab_index := by
  unfold App.modifyActivePage; split <;> rfl

@[simp] theorem modifyActivePage_len (a : App) (f : Page → Page) :
    (a.modifyActivePage f).tabs.length = a.tabs.length := by
  unfold App.modifyActivePage; split
  · rfl
  · simp [List.length_set]

@[simp] theorem modifyActivePage_ptd (a : App) (f : Page → Page) :
    (a.modifyActivePage f).path_to_delete = a.path_to_delete := by
  unfold App.modifyActivePage; split <;> rfl

@[simp] theorem modifyActivePage_ptr (a : App) (f : Page → Page) :
    (a.modifyActivePage f).path_to_rename = a.path_to_rename := by
  unfold App.modifyActivePage; split <;> rfl

@[simp] theorem modifyActivePage_buffer (a : App) (f : Page → Page) :
    (a.modifyActivePage f).command_buffer = a.command_buffer := by
  unfold App.modifyActivePage; split <;> rfl

@[simp] theorem modifyActivePage_status (a : App) (f : Page → Page) :
    (a.modifyActivePage f).status_message = a.status_message := by
  unfold App.modifyActivePage; split <;> rfl

@[simp] theorem modifyActivePage_pane (a : App) (f : Page → Page) :
    (a.modifyActivePage f).active_pane = a.active_pane := by
  unfold App.modifyActivePage; split <;> rfl

@[simp] theorem modifyActivePage_dv (a : App) (f : Page → Page) :
    (a.modifyActivePage f).directory_view = a.directory_view := by
  unfold App.modifyActivePage; split <;> rfl

theorem scroll_fields (a : App) (w h : Nat) :
    (a.scroll_to_cursor w h).mode = a.mode ∧
    (a.scroll_to_cursor w h).command_buffer = a.command_buffer ∧
    (a.scroll_to_cursor w h).status_message = a.status_message ∧
    (a.scroll_to_cursor w h).tabs.length = a.tabs.length ∧
    (a.scroll_to_cursor w h).active_tab_index = a.active_tab_index ∧
    (a.scroll_to_cursor w h).path_to_delete = a.path_to_delete ∧
    (a.scroll_to_cursor w h).path_to_rename = a.path_to_rename := by
  unfold App.scroll_to_cursor
  split
  · simp
  · dsimp only
    split
    · simp
    · split <;> simp

/-- C2 (corrected/amended): in `PromptSave` or `PromptSaveAndQuit`, when Enter
is pressed with a non-empty filename and the write fails, the session switches
to `Command` mode and clears the command buffer, setting the error status
message (it does NOT stay in the prompt mode, contrary to the spec). -/
theorem c2_save_prompt_failure (o : Oracle) (a : App) (e : Str) (tw th : Nat)
    (hmode : a.mode = Mode.PromptSave ∨ a.mode = Mode.PromptSaveAndQuit)
    (hpane : a.active_pane = ActivePane.Editor)
    (hbuf : a.command_buffer ≠ [])
    (hw : o.writeFs (FsPath.push a.directory_view.path a.command_buffer)
            (((a.tabs.get? a.active_tab_index).map (fun p => joinLines p.get_all_lines)).getD [])
          = .error e) :
    (App.handle_event o a evEnter tw th).isSome ∧
    ((App.handle_event o a evEnter tw th).getD a).mode = Mode.Command ∧
    ((App.handle_event o a evEnter tw th).getD a).command_buffer = [] ∧
    ((App.handle_event o a evEnter tw th).getD a).status_message = ("Error: ").toList ++ e := by
  have hcd : a.mode ≠ Mode.ConfirmDelete := by rcases hmode with h | h <;> simp [h]
  have hpn : ¬(a.mode = Mode.PromptNewFile ∨ a.mode = Mode.PromptNewDirectory ∨
      a.mode = Mode.PromptRename) := by rcases hmode with h | h <;> simp [h]
  have hfind : a.mode ≠ Mode.Find := by rcases hmode with h | h <;> simp [h]
  simp only [App.handle_event, evEnter, App.handle_key_event]
  rw [if_neg (by simpa using hcd), if_neg (by simpa using hpn)]
  rw [show ({ a with status_message := [] } : App).active_pane = a.active_pane from rfl, hpane]
  simp only [App.handle_editor_event]
  rw [if_neg (by simpa using hfind), if_pos (by simpa using hmode)]
  simp only [App.handle_prompt_event]
  rw [if_pos (by simpa using hbuf)]
  simp only [hw]
  simp [scroll_fields]

/-- C4 (corrected/amended): with no tabs, executing `w` with no argument never
touches the tabs, the directory view, the panes or the pending paths, and does
not abort — but it is not a pure no-op: it switches the mode to `PromptSave`
and clears the command buffer (the status message is cleared as for every
event). -/
theorem c4_w_empty_tabs_prompts_save (o : Oracle) (a : App) (tw th : Nat)
    (htabs : a.tabs = []) (hmode : a.mode = Mode.Command)
    (hpane : a.active_pane = ActivePane.Editor)
    (hbuf : a.command_buffer = ("w").toList) :
    App.handle_event o a evEnter tw th
      = some { a with mode := Mode.PromptSave, command_buffer := [], status_message := [] } := by
  obtain ⟨t, i, dv, pane, m, cb, sm, sq, fq, fm, cmi, ptd, ptr, fna⟩ := a
  simp only at htabs hmode hpane hbuf
  subst htabs hmode hpane hbuf
  rfl

theorem delete_fail_view (o : Oracle) (a : App) (p : FsPath) (e : Str)
    (hptd : a.path_to_delete = some p)
    (hres : (if o.isDir p then o.removeDirAll p else o.removeFile p) = .error e) :
    (a.handle_delete_confirm_event o (KeyCode.char 'y')).directory_view = a.directory_view := by
  simp only [App.handle_delete_confirm_event, hptd, hres]

theorem delete_ok_view (o : Oracle) (a : App) (p : FsPath) (es : List FsPath)
    (hptd : a.path_to_delete = some p)
    (hres : (if o.isDir p then o.removeDirAll p else o.removeFile p) = .ok ())
    (hread : o.readDir a.directory_view.path = .ok es) :
    (a.handle_delete_confirm_event o (KeyCode.char 'y')).directory_view
      = ⟨a.directory_view.path, es, 0, 0⟩ := by
  simp only [App.handle_delete_confirm_event, hptd, hres]
  by_cases hA : List.filter (fun page => match page.file_path with
      | some page_path => !(FsPath.startsWith p page_path)
      | none => true) a.tabs = []
  · rw [if_pos hA]
    simp [DirectoryView.new, hread]
  · rw [if_neg hA]
    by_cases hB : (List.filter (fun page => match page.file_path with
        | some page_path => !(FsPath.startsWith p page_path)
        | none => true) a.tabs).length ≤ a.active_tab_index
    · rw [if_pos hB]
      simp [DirectoryView.new, hread]
    · rw [if_neg hB]
      simp [DirectoryView.new, hread]

theorem rename_fail_view (o : Oracle) (a : App) (p : FsPath) (name e : Str)
    (hptr : a.path_to_rename = some p)
    (hres : o.renameFs p (FsPath.setFileName p name) = .error e) :
    (a.execute_rename o name).directory_view = a.directory_view := by
  simp only [App.execute_rename, hptr, hres]

theorem rename_ok_view (o : Oracle) (a : App) (p : FsPath) (name : Str) (es : List FsPath)
    (hptr : a.path_to_rename = some p)
    (hres : o.renameFs p (FsPath.setFileName p name) = .ok ())
    (hread : o.readDir a.directory_view.path = .ok es) :
    (a.execute_rename o name).directory_view = ⟨a.directory_view.path, es, 0, 0⟩ := by
  simp only [App.execute_rename, hptr, hres, DirectoryView.new]
  simp_all

theorem new_item_fail_view (o : Oracle) (a : App) (name e : Str) (m : Mode)
    (hres : (if m = Mode.PromptNewFile then o.writeFs (FsPath.push a.directory_view.path name) []
             else o.createDir (FsPath.push a.directory_view.path name)) = .error e) :
    (a.execute_new_item o name m).directory_view = a.directory_view := by
  simp only [App.execute_new_item, hres]

theorem new_item_ok_view (o : Oracle) (a : App) (name : Str) (m : Mode) (es : List FsPath)
    (hres : (if m = Mode.PromptNewFile then o.writeFs (FsPath.push a.directory_view.path name) []
             else o.createDir (FsPath.push a.directory_view.path name)) = .ok ())
    (hread : o.readDir a.directory_view.path = .ok es) :
    (a.execute_new_item o name m).directory_view = ⟨a.directory_view.path, es, 0, 0⟩ := by
  simp only [App.execute_new_item, hres]
  by_cases hm : m = Mode.PromptNewFile
  · rw [if_pos hm]
    simp [DirectoryView.new, hread]
  · rw [if_neg hm]
    simp [DirectoryView.new, hread]

/-- C2 witness: the amended statement at the reachable state `appPromptSaveX`
(whose write fails with `disk full`). -/
theorem c2_save_prompt_witness :
    ((appPromptSaveX.mode = Mode.PromptSave ∨ appPromptSaveX.mode = Mode.PromptSaveAndQuit) ∧
     appPromptSaveX.active_pane = ActivePane.Editor ∧ appPromptSaveX.command_buffer ≠ []) ∧
    ((App.handle_event oracleTest appPromptSaveX evEnter 80 24).isSome ∧
     ((App.handle_event oracleTest appPromptSaveX evEnter 80 24).getD appPromptSaveX).mode
        = Mode.Command ∧
     ((App.handle_event oracleTest appPromptSaveX evEnter 80 24).getD
        appPromptSaveX).command_buffer = [] ∧
     ((App.handle_event oracleTest appPromptSaveX evEnter 80 24).getD
        appPromptSaveX).status_message = ("Error: ").toList ++ ("disk full").toList) :=
  ⟨⟨Or.inl (by decide), by decide, by decide⟩,
   c2_save_prompt_failure oracleTest appPromptSaveX (("disk full").toList) 80 24
     (Or.inl (by decide)) (by decide) (by decide) rfl⟩

/-- C3 (corrected/amended): each filesystem mutation command rebuilds the
Directory Snapshot only when the OS call succeeds (and only if the re-listing
itself succeeds); when the OS call fails, the snapshot is left untouched and
only the error status is set. -/
theorem c3_rebuild_only_on_success :
    (∀ (o : Oracle) (a : App) (p : FsPath) (e : Str), a.path_to_delete = some p →
       (if o.isDir p then o.removeDirAll p else o.removeFile p) = .error e →
       (a.handle_delete_confirm_event o (KeyCode.char 'y')).directory_view
         = a.directory_view) ∧
    (∀ (o : Oracle) (a : App) (p : FsPath) (es : List FsPath), a.path_to_delete = some p →
       (if o.isDir p then o.removeDirAll p else o.removeFile p) = .ok () →
       o.readDir a.directory_view.path = .ok es →
       (a.handle_delete_confirm_event o (KeyCode.char 'y')).directory_view
         = ⟨a.directory_view.path, es, 0, 0⟩) ∧
    (∀ (o : Oracle) (a : App) (p : FsPath) (name e : Str), a.path_to_rename = some p →
       o.renameFs p (FsPath.setFileName p name) = .error e →
       (a.execute_rename o name).directory_view = a.directory_view) ∧
    (∀ (o : Oracle) (a : App) (p : FsPath) (name : Str) (es : List FsPath),
       a.path_to_rename = some p →
       o.renameFs p (FsPath.setFileName p name) = .ok () →
       o.readDir a.directory_view.path = .ok es →
       (a.execute_rename o name).directory_view = ⟨a.directory_view.path, es, 0, 0⟩) ∧
    (∀ (o : Oracle) (a : App) (name e : Str) (m : Mode),
       (if m = Mode.PromptNewFile then o.writeFs (FsPath.push a.directory_view.path name) []
        else o.createDir (FsPath.push a.directory_view.path name)) = .error e →
       (a.execute_new_item o name m).directory_view = a.directory_view) ∧
    (∀ (o : Oracle) (a : App) (name : Str) (m : Mode) (es : List FsPath),
       (if m = Mode.PromptNewFile then o.writeFs (FsPath.push a.directory_view.path name) []
        else o.createDir (FsPath.push a.directory_view.path name)) = .ok () →
       o.readDir a.directory_view.path = .ok es →
       (a.execute_new_item o name m).directory_view = ⟨a.directory_view.path, es, 0, 0⟩) :=
  ⟨fun o a p e h1 h2 => delete_fail_view o a p e h1 h2,
   fun o a p es h1 h2 h3 => delete_ok_view o a p es h1 h2 h3,
   fun o a p name e h1 h2 => rename_fail_view o a p name e h1 h2,
   fun o a p name es h1 h2 h3 => rename_ok_view o a p name es h1 h2 h3,
   fun o a name e m h => new_item_fail_view o a name e m h,
   fun o a name m es h1 h2 => new_item_ok_view o a name m es h1 h2⟩

/-- C3 witness: the amended statement at the concrete `ConfirmDelete` state —
a failing delete leaves the view untouched, a succeeding delete rebuilds it
from the fresh listing `g`. -/
theorem c3_rebuild_witness :
    (appConfirmDelete.path_to_delete = some [("f").toList] ∧
     (App.handle_delete_confirm_event oracleDeleteFail appConfirmDelete
         (KeyCode.char 'y')).directory_view = appConfirmDelete.directory_view) ∧
    (App.handle_delete_confirm_event oracleDeleteOk appConfirmDelete
        (KeyCode.char 'y')).directory_view
      = ⟨appConfirmDelete.directory_view.path, [[("g").toList]], 0, 0⟩ :=
  ⟨⟨by decide,
    c3_rebuild_only_on_success.1 oracleDeleteFail appConfirmDelete [("f").toList]
      (("denied").toList) (by decide) rfl⟩,
   c3_rebuild_only_on_success.2.1 oracleDeleteOk appConfirmDelete [("f").toList]
     [[("g").toList]] (by decide) rfl rfl⟩

/-- C4 witness: the amended statement at the reachable state `appCmdW`. -/
theorem c4_w_empty_tabs_witness :
    (appCmdW.tabs = [] ∧ appCmdW.mode = Mode.Command ∧
     appCmdW.active_pane = ActivePane.Editor ∧ appCmdW.command_buffer = ("w").toList) ∧
    App.handle_event oracleTest appCmdW evEnter 80 24
      = some { appCmdW with mode := Mode.PromptSave, command_buffer := [],
                            status_message := [] } :=
  ⟨⟨by decide, by decide, by decide, by decide⟩,
   c4_w_empty_tabs_prompts_save oracleTest appCmdW 80 24 (by decide) (by decide) (by decide)
     (by decide)⟩

/-- C8 (corrected/amended): the match list is the result of a left-to-right
NON-OVERLAPPING scan (`str::match_indices`), not of listing every literal
occurrence — overlapping occurrences past the first are omitted.  First
conjunct (soundness): every reported `(row, byte column)` really is an
occurrence — the column is a character boundary of that row's line and the
query is a prefix of the suffix starting there.  Second conjunct: the spec's
own scenario, driven through the full event handler — query `foo` against
`foobar`/`xfoo` yields matches `[(0,0), (1,1)]` and the cursor jumps to
`(0,0)`; Enter activates navigation; `n` moves to `(1,1)`; `n` again wraps to
`(0,0)`. -/
theorem c8_find_matches_nonoverlapping :
    (∀ (q : Str) (lines : List Str) (r c : Nat), (r, c) ∈ findMatchesInLines q lines →
       ((lines.get? r).map (fun l => byteOccur q l c)).getD false = true) ∧
    (App.handle_event oracleTest appFindFo (evChar 'o') 80 24 = some appFindFoo ∧
     appFindFoo.find_query = ("foo").toList ∧
     appFindFoo.find_matches = [(0, 0), (1, 1)] ∧
     appFindFoo.find_matches
       = findMatchesInLines (("foo").toList) pageFoo.get_all_lines ∧
     (appFindFoo.tabs.get? 0).map (fun p => (p.cursor_row, p.current.cursor_position))
       = some (0, 0) ∧
     App.handle_event oracleTest appFindFoo evEnter 80 24 = some appFindNav ∧
     appFindNav.find_navigation_active = true ∧
     App.handle_event oracleTest appFindNav (evChar 'n') 80 24 = some appFindN1 ∧
     appFindN1.current_match_index = 1 ∧
     (appFindN1.tabs.get? 0).map (fun p => (p.cursor_row, p.current.cursor_position))
       = some (1, 1) ∧
     App.handle_event oracleTest appFindN1 (evChar 'n') 80 24 = some appFindN2 ∧
     appFindN2.current_match_index = 0 ∧
     (appFindN2.tabs.get? 0).map (fun p => (p.cursor_row, p.current.cursor_position))
       = some (0, 0)) := by
  constructor
  · intro q lines r c hx
    obtain ⟨i, l, h1, h2, h3⟩ := findMatchesFrom_sound q lines 0 r c hx
    have hri : r = i := by omega
    subst hri
    rw [h1]
    simpa using h3
  · exact ⟨rfl, by decide, by decide, by decide, by decide, rfl, by decide, rfl, by decide,
           by decide, rfl, by decide, by decide⟩

/-- C8 witness: the soundness conjunct applied at the concrete match `(1, 1)`
of query `foo` in the lines `foobar` / `xfoo`. -/
theorem c8_find_matches_witness :
    ((1, 1) ∈ findMatchesInLines (("foo").toList) pageFoo.get_all_lines) ∧
    (((pageFoo.get_all_lines.get? 1).map
        (fun l => byteOccur (("foo").toList) l 1)).getD false = true) :=
  ⟨by decide,
   c8_find_matches_nonoverlapping.1 (("foo").toList) pageFoo.get_all_lines 1 1 (by decide)⟩

theorem pathInv_of_modes (b : App) (h1 : b.mode ≠ Mode.ConfirmDelete)
    (h2 : b.mode ≠ Mode.PromptRename) : PathInv b :=
  ⟨fun h => absurd h h1, fun h => absurd h h2⟩

theorem pathInv_of_eq (a b : App) (h : PathInv a) (hm : b.mode = a.mode)
    (hd : b.path_to_delete = a.path_to_delete) (hr : b.path_to_rename = a.path_to_rename) :
    PathInv b :=
  ⟨fun hh => hd ▸ h.1 (hm ▸ hh), fun hh => hr ▸ h.2 (hm ▸ hh)⟩

theorem tabInv_of_eq (a b : App) (h : TabInv a) (hlen : b.tabs.length = a.tabs.length)
    (hidx : b.active_tab_index = a.active_tab_index) : TabInv b := by
  intro hne
  rw [hidx, hlen]
  apply h
  intro h0
  apply hne
  rw [← List.length_eq_zero, hlen, h0]
  rfl

theorem jump_to_match_fields (a : App) :
    (a.jump_to_match).tabs.length = a.tabs.length ∧
    (a.jump_to_match).active_tab_index = a.active_tab_index ∧
    (a.jump_to_match).mode = a.mode ∧
    (a.jump_to_match).path_to_delete = a.path_to_delete ∧
    (a.jump_to_match).path_to_rename = a.path_to_rename := by
  unfold App.jump_to_match
  split <;> simp

theorem jump_to_next_fields (a : App) :
    (a.jump_to_next_match).tabs.length = a.tabs.length ∧
    (a.jump_to_next_match).active_tab_index = a.active_tab_index ∧
    (a.jump_to_next_match).mode = a.mode ∧
    (a.jump_to_next_match).path_to_delete = a.path_to_delete ∧
    (a.jump_to_next_match).path_to_rename = a.path_to_rename := by
  unfold App.jump_to_next_match
  split
  · exact jump_to_match_fields _
  · simp

theorem jump_to_prev_fields (a : App) :
    (a.jump_to_prev_match).tabs.length = a.tabs.length ∧
    (a.jump_to_prev_match).active_tab_index = a.active_tab_index ∧
    (a.jump_to_prev_match).mode = a.mode ∧
    (a.jump_to_prev_match).path_to_delete = a.path_to_delete ∧
    (a.jump_to_prev_match).path_to_rename = a.path_to_rename := by
  unfold App.jump_to_prev_match
  split
  · exact jump_to_match_fields _
  · simp

theorem update_search_fields (a : App) :
    (a.update_search_matches).tabs.length = a.tabs.length ∧
    (a.update_search_matches).active_tab_index = a.active_tab_index ∧
    (a.update_search_matches).mode = a.mode ∧
    (a.update_search_matches).path_to_delete = a.path_to_delete ∧
    (a.update_search_matches).path_to_rename = a.path_to_rename := by
  unfold App.update_search_matches
  dsimp only
  split
  · simp
  · split <;> split <;> first | (simpa using jump_to_match_fields _) | simp

@[simp] theorem jump_len (a : App) : (a.jump_to_match).tabs.length = a.tabs.length :=
  (jump_to_match_fields a).1
@[simp] theorem jump_idx (a : App) : (a.jump_to_match).active_tab_index = a.active_tab_index :=
  (jump_to_match_fields a).2.1
@[simp] theorem jump_mode (a : App) : (a.jump_to_match).mode = a.mode :=
  (jump_to_match_fields a).2.2.1
@[simp] theorem jump_ptd (a : App) : (a.jump_to_match).path_to_delete = a.path_to_delete :=
  (jump_to_match_fields a).2.2.2.1
@[simp] theorem jump_ptr (a : App) : (a.jump_to_match).path_to_rename = a.path_to_rename :=
  (jump_to_match_fields a).2.2.2.2
@[simp] theorem jumpn_len (a : App) : (a.jump_to_next_match).tabs.length = a.tabs.length :=
  (jump_to_next_fields a).1
@[simp] theorem jumpn_idx (a : App) :
    (a.jump_to_next_match).active_tab_index = a.active_tab_index :=
  (jump_to_next_fields a).2.1
@[simp] theorem jumpn_mode (a : App) : (a.jump_to_next_match).mode = a.mode :=
  (jump_to_next_fields a).2.2.1
@[simp] theorem jumpn_ptd (a : App) :
    (a.jump_to_next_match).path_to_delete = a.path_to_delete :=
  (jump_to_next_fields a).2.2.2.1
@[simp] theorem jumpn_ptr (a : App) :
    (a.jump_to_next_match).path_to_rename = a.path_to_rename :=
  (jump_to_next_fields a).2.2.2.2
@[simp] theorem jumpp_len (a : App) : (a.jump_to_prev_match).tabs.length = a.tabs.length :=
  (jump_to_prev_fields a).1
@[simp] theorem jumpp_idx (a : App) :
    (a.jump_to_prev_match).active_tab_index = a.active_tab_index :=
  (jump_to_prev_fields a).2.1
@[simp] theorem jumpp_mode (a : App) : (a.jump_to_prev_match).mode = a.mode :=
  (jump_to_prev_fields a).2.2.1
@[simp] theorem jumpp_ptd (a : App) :
    (a.jump_to_prev_match).path_to_delete = a.path_to_delete :=
  (jump_to_prev_fields a).2.2.2.1
@[simp] theorem jumpp_ptr (a : App) :
    (a.jump_to_prev_match).path_to_rename = a.path_to_rename :=
  (jump_to_prev_fields a).2.2.2.2
@[simp] theorem upd_len (a : App) : (a.update_search_matches).tabs.length = a.tabs.length :=
  (update_search_fields a).1
@[simp] theorem upd_idx (a : App) :
    (a.update_search_matches).active_tab_index = a.active_tab_index :=
  (update_search_fields a).2.1
@[simp] theorem upd_mode (a : App) : (a.update_search_matches).mode = a.mode :=
  (update_search_fields a).2.2.1
@[simp] theorem upd_ptd (a : App) :
    (a.update_search_matches).path_to_delete = a.path_to_delete :=
  (update_search_fields a).2.2.2.1
@[simp] theorem upd_ptr (a : App) :
    (a.update_search_matches).path_to_rename = a.path_to_rename :=
  (update_search_fields a).2.2.2.2
@[simp] theorem scroll_mode (a : App) (w h : Nat) : (a.scroll_to_cursor w h).mode = a.mode :=
  (scroll_fields a w h).1
@[simp] theorem scroll_buffer (a : App) (w h : Nat) :
    (a.scroll_to_cursor w h).command_buffer = a.command_buffer :=
  (scroll_fields a w h).2.1
@[simp] theorem scroll_status (a : App) (w h : Nat) :
    (a.scroll_to_cursor w h).status_message = a.status_message :=
  (scroll_fields a w h).2.2.1
@[simp] theorem scroll_len (a : App) (w h : Nat) :
    (a.scroll_to_cursor w h).tabs.length = a.tabs.length :=
  (scroll_fields a w h).2.2.2.1
@[simp] theorem scroll_idx (a : App) (w h : Nat) :
    (a.scroll_to_cursor w h).active_tab_index = a.active_tab_index :=
  (scroll_fields a w h).2.2.2.2.1
@[simp] theorem scroll_ptd (a : App) (w h : Nat) :
    (a.scroll_to_cursor w h).path_to_delete = a.path_to_delete :=
  (scroll_fields a w h).2.2.2.2.2.1
@[simp] theorem scroll_ptr (a : App) (w h : Nat) :
    (a.scroll_to_cursor w h).path_to_rename = a.path_to_rename :=
  (scroll_fields a w h).2.2.2.2.2.2

theorem appInv_frame (a b : App) (h : AppInv a)
    (hlen : b.tabs.length = a.tabs.length) (hidx : b.active_tab_index = a.active_tab_index)
    (hm : b.mode = a.mode) (hd : b.path_to_delete = a.path_to_delete)
    (hr : b.path_to_rename = a.path_to_rename) : AppInv b :=
  ⟨tabInv_of_eq a b h.1 hlen hidx, pathInv_of_eq a b h.2 hm hd hr⟩

theorem appInv_newmode (a b : App) (h : TabInv a)
    (hlen : b.tabs.length = a.tabs.length) (hidx : b.active_tab_index = a.active_tab_index)
    (hm1 : b.mode ≠ Mode.ConfirmDelete) (hm2 : b.mode ≠ Mode.PromptRename) : AppInv b :=
  ⟨tabInv_of_eq a b h hlen hidx, pathInv_of_modes b hm1 hm2⟩

theorem appInv_find (a : App) (ev : KeyEvent) (h : AppInv a) :
    AppInv (a.handle_find_event ev) := by
  unfold App.handle_find_event
  split
  · apply appInv_newmode a _ h.1 <;> simp
  · split
    · apply appInv_frame a _ h <;> simp
    · exact h
  · split
    · apply appInv_frame a _ h <;> simp
    · split
      · apply appInv_frame a _ h <;> simp
      · split <;> apply appInv_frame a _ h <;> simp
  · split
    · apply appInv_frame a _ h <;> simp
    · exact h
  · exact h

theorem appInv_prompt_event (o : Oracle) (a : App) (kc : KeyCode) (h : AppInv a) :
    AppInv (a.handle_prompt_event o kc) := by
  unfold App.handle_prompt_event
  split
  · apply appInv_newmode a _ h.1 <;> simp
  · apply appInv_frame a _ h <;> simp
  · apply appInv_frame a _ h <;> simp
  · split
    · dsimp only
      split <;> (try split) <;> (try split) <;> (apply appInv_newmode a _ h.1 <;> simp)
    · exact h
  · exact h

theorem appInv_execute_rename (o : Oracle) (a : App) (name : Str) (h : AppInv a) :
    AppInv (a.execute_rename o name) := by
  unfold App.execute_rename
  split
  · dsimp only
    split <;> (try split) <;> (apply appInv_newmode a _ h.1 <;> simp)
  · apply appInv_newmode a _ h.1 <;> simp

theorem appInv_execute_new_item (o : Oracle) (a : App) (name : Str) (m : Mode) (h : AppInv a) :
    AppInv (a.execute_new_item o name m) := by
  unfold App.execute_new_item
  dsimp only
  split
  · split <;> (try split) <;> (try split) <;>
      first
        | (apply appInv_newmode a _ h.1 <;> (simp; done))
        | (refine ⟨fun hne => ?_, pathInv_of_modes _ (by simp) (by simp)⟩
           simp
           try omega)
  · apply appInv_newmode a _ h.1 <;> simp

theorem appInv_prompt_input (o : Oracle) (a : App) (kc : KeyCode) (h : AppInv a) :
    AppInv (a.handle_prompt_input_event o kc) := by
  unfold App.handle_prompt_input_event
  split
  · apply appInv_newmode a _ h.1 <;> simp
  · apply appInv_frame a _ h <;> simp
  · apply appInv_frame a _ h <;> simp
  · split
    · dsimp only
      split
      · apply appInv_execute_rename
        apply appInv_frame a _ h <;> simp
      · apply appInv_execute_new_item
        apply appInv_frame a _ h <;> simp
    · exact h
  · exact h

theorem appInv_delete_confirm (o : Oracle) (a : App) (kc : KeyCode) (h : AppInv a) :
    AppInv (a.handle_delete_confirm_event o kc) := by
  unfold App.handle_delete_confirm_event
  split
  all_goals
    first
      | exact h
      | (apply appInv_newmode a _ h.1 <;> (simp; done))
      | (split
         · dsimp only
           split
           · split <;> (try split) <;> (try split) <;>
               first
                 | (apply appInv_newmode a _ h.1 <;> (simp; done))
                 | (refine ⟨fun hne => ?_, pathInv_of_modes _ (by simp) (by simp)⟩
                    simp_all
                    done)
                 | (refine ⟨fun hne => ?_, pathInv_of_modes _ (by simp) (by simp)⟩
                    have hpos := List.length_pos.mpr hne
                    dsimp only at hpos ⊢
                    omega)
           · apply appInv_newmode a _ h.1 <;> simp
         · apply appInv_newmode a _ h.1 <;> simp)

theorem findPosition_lt (pred : Page → Bool) :
    ∀ (l : List Page) (i : Nat), findPosition pred l = some i → i < l.length := by
  intro l
  induction l with
  | nil => intro i hh; simp [findPosition] at hh
  | cons p rest ih =>
    intro i hh
    simp only [findPosition] at hh
    split at hh
    · cases hh; simp
    · obtain ⟨j, hj, hji⟩ := Option.map_eq_some'.mp hh
      have := ih j hj
      simp only [List.length_cons]
      omega

theorem go_up_fields (o : Oracle) (a : App) :
    (a.go_up_directory o).tabs.length = a.tabs.length ∧
    (a.go_up_directory o).active_tab_index = a.active_tab_index ∧
    (a.go_up_directory o).mode = a.mode ∧
    (a.go_up_directory o).path_to_delete = a.path_to_delete ∧
    (a.go_up_directory o).path_to_rename = a.path_to_rename ∧
    (a.go_up_directory o).tabs = a.tabs := by
  unfold App.go_up_directory
  split
  · split <;> simp
  · simp

@[simp] theorem go_up_len (o : Oracle) (a : App) :
    (a.go_up_directory o).tabs.length = a.tabs.length := (go_up_fields o a).1

@[simp] theorem go_up_idx (o : Oracle) (a : App) :
    (a.go_up_directory o).active_tab_index = a.active_tab_index := (go_up_fields o a).2.1

@[simp] theorem go_up_mode (o : Oracle) (a : App) :
    (a.go_up_directory o).mode = a.mode := (go_up_fields o a).2.2.1

@[simp] theorem go_up_ptd (o : Oracle) (a : App) :
    (a.go_up_directory o).path_to_delete = a.path_to_delete := (go_up_fields o a).2.2.2.1

@[simp] theorem go_up_ptr (o : Oracle) (a : App) :
    (a.go_up_directory o).path_to_rename = a.path_to_rename := (go_up_fields o a).2.2.2.2.1

theorem appInv_prompt_for_delete (a : App) (h : AppInv a) : AppInv a.prompt_for_delete := by
  unfold App.prompt_for_delete
  split
  · exact ⟨tabInv_of_eq a _ h.1 (by simp) (by simp),
           ⟨fun _ => by simp, fun hPR => by simp at hPR⟩⟩
  · exact h

theorem appInv_prompt_for_rename (a : App) (h : AppInv a) : AppInv a.prompt_for_rename := by
  unfold App.prompt_for_rename
  split
  · exact ⟨tabInv_of_eq a _ h.1 (by simp) (by simp),
           ⟨fun hCD => by simp at hCD, fun _ => by simp⟩⟩
  · exact h

theorem appInv_open (o : Oracle) (a a' : App) (h : AppInv a)
    (heq : a.open_selected_entry o = some a') : AppInv a' := by
  unfold App.open_selected_entry at heq
  split at heq
  · cases heq; exact h
  · split at heq
    · split at heq
      · cases heq
        apply appInv_frame a _ h <;> simp
      · dsimp only at heq
        split at heq
        · cases heq
          apply appInv_frame a _ h <;> simp
        · cases heq
    · dsimp only at heq
      split at heq
      · next idx hidx =>
        cases heq
        refine ⟨fun hne => ?_, pathInv_of_modes _ (by simp) (by simp)⟩
        simpa using findPosition_lt _ a.tabs idx hidx
      · split at heq
        · cases heq
          exact ⟨fun hne => by simp, pathInv_of_modes _ (by simp) (by simp)⟩
        · cases heq
          refine ⟨fun hne => ?_, pathInv_of_modes _ (by simp) (by simp)⟩
          simp

theorem appInv_go_up (o : Oracle) (a : App) (h : AppInv a) : AppInv (a.go_up_directory o) := by
  unfold App.go_up_directory
  split
  · split
    · apply appInv_frame a _ h <;> simp
    · apply appInv_frame a _ h <;> simp
  · exact h

theorem appInv_file_tree (o : Oracle) (a a' : App) (kc : KeyCode) (h : AppInv a)
    (heq : a.handle_file_tree_event o kc = some a') : AppInv a' := by
  unfold App.handle_file_tree_event at heq
  split at heq <;>
    first
    | exact appInv_open o a a' h heq
    | (cases heq; exact h)
    | (cases heq
       apply appInv_newmode a _ h.1 <;> (simp; done))
    | (cases heq
       apply appInv_frame a _ h <;> (simp; done))
    | (cases heq
       refine ⟨tabInv_of_eq a _ h.1 (by simp) (by simp), pathInv_of_modes _ ?_ ?_⟩ <;>
         (dsimp only; split <;> simp))
    | (obtain ⟨b, hb, hab⟩ := Option.map_eq_some'.mp heq
       subst hab
       apply appInv_frame b _ (appInv_open o a b h hb) <;> (simp; done))
    | (split at heq
       · exact appInv_open o a a' h heq
       · dsimp only at heq
         repeat' split at heq
         all_goals
           first
           | (cases heq
              apply appInv_prompt_for_delete
              apply appInv_frame a _ h <;> (simp; done))
           | (cases heq
              apply appInv_prompt_for_rename
              apply appInv_frame a _ h <;> (simp; done))
           | (cases heq
              apply appInv_newmode a _ h.1 <;> (simp; done))
           | (cases heq
              apply appInv_frame a _ h <;> (simp; done)))

theorem appInv_revert (o : Oracle) (a : App) (h : AppInv a) :
    AppInv (a.revert_active_file o) := by
  unfold App.revert_active_file
  split
  · split
    · dsimp only
      apply appInv_frame a _ h <;> (simp; done)
    · apply appInv_frame a _ h <;> (simp; done)
  · apply appInv_frame a _ h <;> (simp; done)

theorem appInv_save (o : Oracle) (a : App) (arg : Option Str) (q : Bool) (h : AppInv a) :
    AppInv (a.save_active_file o arg q).1 := by
  unfold App.save_active_file
  dsimp only
  split
  · split
    · dsimp only
      split <;> (apply appInv_frame a _ h <;> (simp; done))
    · apply appInv_frame a _ h <;> (simp; done)
  · refine ⟨tabInv_of_eq a _ h.1 (by simp) (by simp), pathInv_of_modes _ ?_ ?_⟩ <;>
      (dsimp only; split <;> simp)

theorem tabInv_clamp (a : App) : TabInv a.clampAfterClose := by
  unfold App.clampAfterClose TabInv
  split
  · intro hne
    simp_all
  · split
    · intro hne
      try dsimp only at hne
      try dsimp only
      have : 0 < a.tabs.length := List.length_pos.mpr (by simpa using hne)
      omega
    · intro hne
      try dsimp only at hne
      try dsimp only
      omega

theorem appInv_clamp (a : App) (h : PathInv a) : AppInv a.clampAfterClose := by
  refine ⟨tabInv_clamp a, ?_⟩
  unfold App.clampAfterClose
  split
  · exact pathInv_of_modes _ (by simp) (by simp)
  · split
    · exact pathInv_of_eq a _ h (by simp) (by simp) (by simp)
    · exact h

theorem appInv_close_clamp (a b : App) (h : AppInv a) (heq : a.closeActiveTab = some b) :
    AppInv b.clampAfterClose := by
  apply appInv_clamp
  unfold App.closeActiveTab at heq
  split at heq
  · split at heq
    · cases heq
      exact pathInv_of_eq a _ h.2 (by simp) (by simp) (by simp)
    · cases heq
  · cases heq
    exact h.2

theorem appInv_execute_command (o : Oracle) (a a' : App) (h : AppInv a)
    (heq : a.execute_command o = some a') : AppInv a' := by
  unfold App.execute_command at heq
  dsimp only at heq
  obtain ⟨b, hb, hab⟩ := Option.map_eq_some'.mp heq
  subst hab
  have hbInv : AppInv b := by
    repeat' split at hb
    all_goals
      first
      | (cases hb; done)
      | (cases hb
         apply appInv_newmode a _ h.1 <;> (simp; done))
      | (cases hb
         apply appInv_frame a _ h <;> (simp; done))
      | (cases hb
         exact appInv_revert o a h)
      | (cases hb
         exact appInv_save o a _ _ h)
      | (obtain ⟨c, hc, hcb⟩ := Option.map_eq_some'.mp hb
         subst hcb
         exact appInv_close_clamp a c h hc)
      | (obtain ⟨c, hc, hcb⟩ := Option.map_eq_some'.mp hb
         subst hcb
         exact appInv_close_clamp _ c (appInv_save o a _ false h) hc)
  apply appInv_frame b _ hbInv <;> (simp; done)

theorem appInv_scroll (a : App) (w h : Nat) (hInv : AppInv a) :
    AppInv (a.scroll_to_cursor w h) := by
  obtain ⟨hm, hb, hs, hlen, hidx, hd, hr⟩ := scroll_fields a w h
  exact appInv_frame a _ hInv hlen hidx hm hd hr

theorem tabClickIndex_lt (tabs : List Page) (i cur col k : Nat)
    (heq : tabClickIndex tabs i cur col = some k) : k < i + tabs.length := by
  induction tabs generalizing i cur with
  | nil => simp [tabClickIndex] at heq
  | cons p rest ih =>
    unfold tabClickIndex at heq
    dsimp only at heq
    split at heq
    · cases heq
      simp
    · have hk := ih (i + 1) _ heq
      simp only [List.length_cons]
      omega

theorem appInv_mouse (a : App) (m : MouseEvt) (w h : Nat) (hInv : AppInv a) :
    AppInv (a.handle_mouse_event m w h) := by
  unfold App.handle_mouse_event
  dsimp only
  split
  · split <;> (apply appInv_frame a _ hInv <;> (simp; done))
  · split
    · try dsimp only
      split
      · apply appInv_frame a _ hInv <;> (simp; done)
      · exact hInv
    · apply appInv_frame a _ hInv <;> (simp; done)
  · split
    · try dsimp only
      split
      · apply appInv_newmode a _ hInv.1 <;> (simp; done)
      · apply appInv_newmode a _ hInv.1 <;> (simp; done)
    · try dsimp only
      split
      · split
        · rename_i i hi
          refine ⟨fun hne => ?_, pathInv_of_eq a _ hInv.2 (by simp) (by simp) (by simp)⟩
          dsimp only at hne ⊢
          have hk := tabClickIndex_lt a.tabs 0 _ _ i hi
          simpa using hk
        · exact hInv
      · split
        · try dsimp only
          apply appInv_newmode a _ hInv.1 <;> (simp; done)
        · exact hInv
  · exact hInv

theorem appInv_editor (o : Oracle) (a a' : App) (ev : KeyEvent) (h : AppInv a)
    (heq : a.handle_editor_event o ev = some a') : AppInv a' := by
  unfold App.handle_editor_event at heq
  repeat' split at heq
  all_goals
    first
    | (cases heq; done)
    | (cases heq; exact h)
    | (cases heq
       exact appInv_find a ev h)
    | (cases heq
       exact appInv_prompt_event o a ev.code h)
    | (cases heq
       apply appInv_newmode a _ h.1 <;> (simp; done))
    | (cases heq
       apply appInv_frame a _ h <;> (simp; done))
    | (exact appInv_execute_command o a a' h heq)
    | (cases heq
       refine ⟨fun hne => ?_, pathInv_of_eq a _ h.2 (by simp) (by simp) (by simp)⟩
       dsimp only at hne ⊢
       exact Nat.mod_lt _ (by omega))

theorem appInv_key (o : Oracle) (a a' : App) (ev : KeyEvent) (tw th : Nat) (h : AppInv a)
    (heq : a.handle_key_event o ev tw th = some a') : AppInv a' := by
  unfold App.handle_key_event at heq
  split at heq
  · cases heq
    exact appInv_delete_confirm o a ev.code h
  · split at heq
    · cases heq
      exact appInv_prompt_input o a ev.code h
    · dsimp only at heq
      obtain ⟨b, hb, hab⟩ := Option.map_eq_some'.mp heq
      subst hab
      refine appInv_scroll b tw th ?_
      split at hb
      · exact appInv_editor o a b ev h hb
      · exact appInv_file_tree o a b ev.code h hb

theorem appInv_event (o : Oracle) (a a' : App) (ev : Event) (tw th : Nat) (h : AppInv a)
    (heq : a.handle_event o ev tw th = some a') : AppInv a' := by
  unfold App.handle_event at heq
  dsimp only at heq
  have h0 : AppInv { a with status_message := [] } :=
    appInv_frame a _ h (by simp) (by simp) (by simp) (by simp) (by simp)
  split at heq
  · exact appInv_key o _ a' _ tw th h0 heq
  · cases heq
    exact appInv_mouse _ _ tw th h0
  · cases heq
    exact h0

theorem appInv_init (o : Oracle) (cwd : FsPath) (ip : Option FsPath) (a : App)
    (heq : App.new o cwd ip = .ok a) : AppInv a := by
  unfold App.new at heq
  split at heq
  · cases heq
  · split at heq
    · cases heq
      refine ⟨fun hne => ?_, fun hm => ?_, fun hm => ?_⟩ <;> simp_all
    · cases heq
      refine ⟨fun hne => ?_, fun hm => ?_, fun hm => ?_⟩ <;> simp_all

theorem reachable_appInv (a : App) (h : Reachable a) : AppInv a := by
  induction h with
  | init o cwd ip a heq => exact appInv_init o cwd ip a heq
  | step o a a' ev tw th _ heq ih => exact appInv_event o a a' ev tw th ih heq

/-- C1: along any reachable session state, a pending-deletion dialog always has
its pending path recorded, and likewise for the rename prompt: whenever
`mode = ConfirmDelete` the field `path_to_delete` is `Some`, and whenever
`mode = PromptRename` the field `path_to_rename` is `Some`. (This is the
provable direction of the spec's claimed equivalence; the converse direction is
refuted separately by a reachable state in mode `FileTree` with
`path_to_rename` still set.) -/
theorem c1_pending_path_invariant (a : App) (h : Reachable a) :
    (a.mode = Mode.ConfirmDelete → a.path_to_delete.isSome = true) ∧
    (a.mode = Mode.PromptRename → a.path_to_rename.isSome = true) :=
  (reachable_appInv a h).2

theorem c1_pending_path_witness :
    (appConfirmDelete.mode = Mode.ConfirmDelete → appConfirmDelete.path_to_delete.isSome = true) ∧
    (appConfirmDelete.mode = Mode.PromptRename → appConfirmDelete.path_to_rename.isSome = true) :=
  c1_pending_path_invariant appConfirmDelete reachable_appConfirmDelete

/-- C10: along any reachable session state, if the tab list is non-empty then
`active_tab_index` is a valid index into it. -/
theorem c10_active_tab_in_range (a : App) (h : Reachable a) (hne : a.tabs ≠ []) :
    a.active_tab_index < a.tabs.length :=
  (reachable_appInv a h).1 hne

theorem c10_active_tab_witness :
    appEdit.tabs ≠ [] ∧ appEdit.active_tab_index < appEdit.tabs.length := by
  have hlen : appEdit.tabs.length = 1 := rfl
  have hne : appEdit.tabs ≠ [] := by
    intro hc
    rw [hc] at hlen
    exact absurd hlen (by decide)
  exact ⟨hne, c10_active_tab_in_range appEdit reachable_appEdit hne⟩
